import Mathlib

/-!
Verification of the crsym crash symbolizer core: the Breakpad symbol-file
decoder and the crash-report rendering pipeline.  Go strings are modelled
as lists of characters, Go `uint64` values as natural numbers reduced
modulo `2^64` at the operations where Go wraps, fallible operations as
`Option`/`Except`.
-/

namespace Crsym

/-- Go strings, modelled as lists of characters (the inputs the program
cares about are ASCII, where bytes and runes coincide). -/
abbrev Str := List Char

/-- `2^64`, the modulus of Go `uint64` arithmetic. -/
def U64 : Nat := 2 ^ 64

/-- Largest Go `int64`. -/
def I64MAX : Int := 2 ^ 63 - 1

/-- Smallest Go `int64`. -/
def I64MIN : Int := -(2 ^ 63)

/-- Convert a string literal to the character-list model. -/
def str (s : String) : Str := s.data

/-! ## Character-level helpers -/

/-- Decimal digit test, as `unicode.IsDigit` restricted to ASCII (the only
characters the decimal parsers accept). -/
def isDigit (c : Char) : Bool := '0' ≤ c && c ≤ '9'

/-- Value of a hexadecimal digit, for `strconv.ParseUint(s, 16, 64)`. -/
def hexVal (c : Char) : Option Nat :=
  if '0' ≤ c ∧ c ≤ '9' then some (c.toNat - '0'.toNat)
  else if 'a' ≤ c ∧ c ≤ 'f' then some (c.toNat - 'a'.toNat + 10)
  else if 'A' ≤ c ∧ c ≤ 'F' then some (c.toNat - 'A'.toNat + 10)
  else none

/-- ASCII uppercasing of one character, as `strings.ToUpper` acts on the
ASCII identifiers this program manipulates. -/
def upChar (c : Char) : Char :=
  if 97 ≤ c.toNat ∧ c.toNat ≤ 122 then Char.ofNat (c.toNat - 32) else c

/-! ## Go string-library operations used by the source -/

/-- Split a string at the first occurrence of `sep`: the piece before and
the piece after, or `none` when `sep` does not occur. -/
def splitOnce (sep : Char) : Str → Option (Str × Str)
  | [] => none
  | c :: rest =>
    if c = sep then some ([], rest)
    else
      match splitOnce sep rest with
      | none => none
      | some (l, r) => some (c :: l, r)

/-- `strings.SplitN(s, sep, n)` for `n ≥ 1` and a one-character separator:
at most `n` pieces, the last piece being the unsplit remainder. -/
def goSplitN (s : Str) (sep : Char) : Nat → List Str
  | 0 => []
  | 1 => [s]
  | n + 2 =>
    match splitOnce sep s with
    | none => [s]
    | some (l, r) => l :: goSplitN r sep (n + 1)

/-- `strings.TrimRight(s, "\n")`: remove every trailing newline. -/
def trimRightNL (s : Str) : Str :=
  (s.reverse.dropWhile (· = '\n')).reverse

/-- Accumulate the current line (in reverse) while scanning for the next
newline; a final segment with no terminator is discarded. -/
def completeLinesAux (cur : Str) : Str → List Str
  | [] => []
  | c :: rest =>
    if c = '\n' then cur.reverse :: completeLinesAux [] rest
    else completeLinesAux (c :: cur) rest

/-- The newline-terminated lines of a buffer, as produced by the
`bufio.Reader.ReadString('\n')` loops in the source: each element is the
content of one line with its terminator removed, and any final segment
not terminated by a newline is not returned (the loops break on `io.EOF`
without processing the partial line). -/
def completeLines (s : Str) : List Str := completeLinesAux [] s

/-- `path.Base` from Go's `path` package: the last element of the path,
after removing trailing slashes; `"."` for the empty path, `"/"` when
everything was slashes. -/
def goPathBase (s : Str) : Str :=
  if s = [] then str "."
  else
    let s₁ := (s.reverse.dropWhile (· = '/')).reverse
    if s₁ = [] then str "/"
    else (s₁.reverse.takeWhile (· ≠ '/')).reverse

/-! ## Go numeric parsing -/

/-- Accumulate hexadecimal digits left to right; `none` on a non-digit. -/
def hexAccum : Str → Nat → Option Nat
  | [], acc => some acc
  | c :: rest, acc =>
    match hexVal c with
    | none => none
    | some v => hexAccum rest (acc * 16 + v)

/-- `strconv.ParseUint(s, 16, 64)`: non-empty hexadecimal digits (no
sign), value below `2^64`; `none` models a returned error. -/
def parseHexU64 (s : Str) : Option Nat :=
  match s with
  | [] => none
  | _ =>
    match hexAccum s 0 with
    | none => none
    | some v => if v < U64 then some v else none

/-- `breakpad.ParseAddress`: strip an optional lowercase `0x` prefix and
parse the rest as hexadecimal. -/
def ParseAddress (s : Str) : Option Nat :=
  if s.take 2 = str "0x" then parseHexU64 (s.drop 2) else parseHexU64 s

/-- Accumulate decimal digits; `none` on a non-digit or an empty string. -/
def decAccum : Str → Nat → Option Nat
  | [], acc => some acc
  | c :: rest, acc =>
    if isDigit c then decAccum rest (acc * 10 + (c.toNat - '0'.toNat))
    else none

/-- `strconv.ParseInt(s, 10, 64)` (also `strconv.Atoi` on a 64-bit
platform).  Returns the Go result pair: the parsed value together with an
`ok` flag; on a syntax error Go returns `0` with an error, and on a range
error the value clamped to the `int64` range with an error. -/
def goParseInt64 (s : Str) : Int × Bool :=
  let (neg, digits) :=
    match s with
    | '+' :: rest => (false, rest)
    | '-' :: rest => (true, rest)
    | _ => (false, s)
  match digits with
  | [] => (0, false)
  | _ =>
    match decAccum digits 0 with
    | none => (0, false)
    | some v =>
      let value : Int := if neg then -(v : Int) else (v : Int)
      if value < I64MIN then (I64MIN, false)
      else if I64MAX < value then (I64MAX, false)
      else (value, true)

/-! ## Number formatting used by the renderers -/

/-- One lowercase hexadecimal digit. -/
def hexDigit (n : Nat) : Char :=
  if n < 10 then Char.ofNat ('0'.toNat + n)
  else Char.ofNat ('a'.toNat + (n - 10))

/-- Digit extraction with an explicit iteration bound (the bound makes
the division loop structurally recursive so that proofs can evaluate it;
any bound of at least the digit count gives the same digits). -/
def natDigitsAux (base : Nat) : Nat → Nat → List Nat
  | 0, _ => []
  | _, 0 => []
  | fuel + 1, n => natDigitsAux base fuel (n / base) ++ [n % base]

/-- Hexadecimal digits of `n`, without leading zeros (`"0"` for zero),
as Go's `%x` verb prints them. -/
def natToHex (n : Nat) : Str :=
  if n = 0 then str "0" else (natDigitsAux 16 n n).map hexDigit

/-- Decimal digits of `n`, as Go's `%d` prints a non-negative value. -/
def natToDec (n : Nat) : Str :=
  if n = 0 then str "0"
  else (natDigitsAux 10 n n).map (fun d => Char.ofNat ('0'.toNat + d))

/-- Go's `%d` on an `int`. -/
def intToDec (i : Int) : Str :=
  if i < 0 then '-' :: natToDec (-i).toNat else natToDec i.toNat

/-- Go's `%#x` on a `uint64`: `0x` followed by the hex digits. -/
def goHashHex (n : Nat) : Str := str "0x" ++ natToHex n

/-- Go's `%#08x` on a `uint64`: the `0x`-prefixed hex form zero-padded
(after the prefix) to a total width of eight characters. -/
def goHash08x (n : Nat) : Str :=
  let digits := natToHex n
  let pad := 8 - (2 + digits.length)
  str "0x" ++ List.replicate pad '0' ++ digits

/-! ## Breakpad symbol-file decoder (`breakpad/symbol_table.go`) -/

/-- A LINE record attached to a FUNC. -/
structure lineRecord where
  address : Nat
  size : Nat
  line : Int
  file : Int
  deriving Repr, DecidableEq

/-- A FUNC or PUBLIC record (`funcRecord` in the source; PUBLIC records
leave `size` at zero and `lines` empty). -/
structure funcRecord where
  address : Nat
  size : Nat
  name : Str
  lines : List lineRecord
  deriving Repr, DecidableEq

instance : Inhabited funcRecord := ⟨⟨0, 0, [], []⟩⟩

/-- The decoder state (`breakpadFile`).  The Go `lastFunc` pointer always
either is nil or points at the final element of `funcs` (every record
dispatch clears it and only a FUNC record sets it), so it is modelled as
a validity flag. -/
structure breakpadFile where
  osname : Str := []
  arch : Str := []
  ident : Str := []
  module : Str := []
  files : List (Int × Str) := []
  funcs : List funcRecord := []
  lastFunc : Bool := false
  publics : List funcRecord := []
  deriving Repr, DecidableEq

instance : Inhabited breakpadFile := ⟨{}⟩

/-- Association-list read with Go's zero-value-on-miss semantics for
`map[int64]string`. -/
def filesGet (files : List (Int × Str)) (k : Int) : Str :=
  match files.find? (fun p => p.1 = k) with
  | some p => p.2
  | none => []

/-- Whether a FILE number is already present (`_, ok := b.files[num]`). -/
def filesHas (files : List (Int × Str)) (k : Int) : Bool :=
  (files.find? (fun p => p.1 = k)).isSome

/-- `parseModule`: `MODULE <os> <arch> <id> <name…>`, at most once. -/
def parseModule (b : breakpadFile) (line : Str) : Except Str breakpadFile :=
  if b.ident ≠ [] then .error (str "parse module: already encountered a MODULE record")
  else
    let tokens := goSplitN line ' ' 5
    if tokens.length < 5 then .error (str "parse module: invalid number of tokens")
    else .ok { b with
      osname := tokens.getD 1 []
      arch := tokens.getD 2 []
      ident := tokens.getD 3 []
      module := tokens.getD 4 [] }

/-- `parseFile`: `FILE <n> <path…>` with a unique decimal number. -/
def parseFile (b : breakpadFile) (line : Str) : Except Str breakpadFile :=
  let tokens := goSplitN line ' ' 3
  if tokens.length < 3 then .error (str "parse file: invalid number of tokens")
  else
    let (num, ok) := goParseInt64 (tokens.getD 1 [])
    if !ok then .error (str "parse file number")
    else if filesHas b.files num then .error (str "parse file: duplicate file line")
    else .ok { b with files := b.files ++ [(num, tokens.getD 2 [])] }

/-- `parseFunc`: `FUNC <addr> <size> <paramSize> <name…>`. -/
def parseFunc (b : breakpadFile) (line : Str) : Except Str breakpadFile :=
  let tokens := goSplitN line ' ' 5
  if tokens.length < 5 then .error (str "parse func: too few tokens")
  else
    match ParseAddress (tokens.getD 1 []) with
    | none => .error (str "parse func address")
    | some address =>
      match ParseAddress (tokens.getD 2 []) with
      | none => .error (str "parse func size")
      | some size =>
        .ok { b with
          funcs := b.funcs ++ [{ address := address, size := size,
                                 name := tokens.getD 4 [], lines := [] }]
          lastFunc := true }

/-- `parsePublic`: `PUBLIC <addr> <paramSize> <name…>`. -/
def parsePublic (b : breakpadFile) (line : Str) : Except Str breakpadFile :=
  let tokens := goSplitN line ' ' 4
  if tokens.length < 4 then .error (str "parse public: too few tokens")
  else
    match ParseAddress (tokens.getD 1 []) with
    | none => .error (str "parse public address")
    | some address =>
      .ok { b with
        publics := b.publics ++ [{ address := address, size := 0,
                                   name := tokens.getD 3 [], lines := [] }] }

/-- Append a LINE record to the last FUNC of the list. -/
def appendLineToLast (funcs : List funcRecord) (l : lineRecord) : List funcRecord :=
  match funcs with
  | [] => []
  | [f] => [{ f with lines := f.lines ++ [l] }]
  | f :: rest => f :: appendLineToLast rest l

/-- `parseLine`: the untagged record `<addr> <size> <line> <fileNumber>`
attached to the most recent FUNC.  NOTE: the source constructs an error
for an unparseable file number (`fmt.Errorf(...)`) but never returns it,
so the parse failure is swallowed and Go's `ParseInt` zero/clamped result
is stored; the model reproduces that faithfully. -/
def parseLine (b : breakpadFile) (line : Str) : Except Str breakpadFile :=
  let tokens := goSplitN line ' ' 4
  if tokens.length ≠ 4 then .error (str "parse line: invalid number of tokens")
  else if !b.lastFunc then .error (str "parse line: no corresponding FUNC record")
  else
    match ParseAddress (tokens.getD 0 []) with
    | none => .error (str "parse line address")
    | some address =>
      match ParseAddress (tokens.getD 1 []) with
      | none => .error (str "parse line size")
      | some size =>
        let (lineNo, lineOk) := goParseInt64 (tokens.getD 2 [])
        if !lineOk then .error (str "parse line line")
        else
          let (file, _fileOk) := goParseInt64 (tokens.getD 3 [])
          -- The `_fileOk` flag is dropped, exactly as the source drops
          -- the error from `strconv.ParseInt(tokens[kLineFileNumber], …)`.
          let rec' : lineRecord := ⟨address, size, lineNo, file⟩
          .ok { b with funcs := appendLineToLast b.funcs rec' }

/-- One iteration of the `parseBreakpad` read loop: dispatch on the first
space-separated token of the line. -/
def parseRecord (b : breakpadFile) (line₀ : Str) : Except Str breakpadFile :=
  let line := trimRightNL line₀
  let recordType := (goSplitN line ' ' 2).getD 0 []
  if recordType = str "MODULE" then parseModule { b with lastFunc := false } line
  else if recordType = str "FILE" then parseFile { b with lastFunc := false } line
  else if recordType = str "FUNC" then parseFunc { b with lastFunc := false } line
  else if recordType = str "PUBLIC" then parsePublic { b with lastFunc := false } line
  else if recordType = str "INFO" ∨ recordType = str "STACK" then
    .ok { b with lastFunc := false }
  else if !b.lastFunc then
    .error (str "parse breakpad: unknown line")
  else parseLine b line

/-- Fold the record dispatcher over a list of lines. -/
def parseRecords (b : breakpadFile) : List Str → Except Str breakpadFile
  | [] => .ok b
  | l :: rest =>
    match parseRecord b l with
    | .error e => .error e
    | .ok b' => parseRecords b' rest

/-- Insert a record into a list already sorted by ascending address. -/
def insertByAddress (f : funcRecord) : List funcRecord → List funcRecord
  | [] => [f]
  | g :: rest =>
    if f.address ≤ g.address then f :: g :: rest
    else g :: insertByAddress f rest

/-- Sort records by ascending address (`sort.Sort` on `funcList`; Go's
sort is unstable, so any address-sorted permutation is a faithful model —
this one is the insertion sort). -/
def sortByAddress : List funcRecord → List funcRecord
  | [] => []
  | f :: rest => insertByAddress f (sortByAddress rest)

/-- `parseBreakpad`: split the input into newline-terminated lines,
process each record, then sort `funcs` and `publics` by address. -/
def parseBreakpad (data : Str) : Except Str breakpadFile :=
  match parseRecords {} (completeLines data) with
  | .error e => .error e
  | .ok b => .ok { b with funcs := sortByAddress b.funcs,
                          publics := sortByAddress b.publics }

/-! ## Symbol lookup (`SymbolForAddress`) -/

/-- A resolved symbol (`breakpad.Symbol`). -/
structure Symbol where
  Function : Str
  File : Str := []
  Line : Int := 0
  deriving Repr, DecidableEq

/-- `Symbol.FileLine`: `basename(file):line`, or empty without a file. -/
def Symbol.FileLine (s : Symbol) : Str :=
  if s.File = [] then []
  else goPathBase s.File ++ str ":" ++ intToDec s.Line

/-- `lineAtAddress`: the first LINE record of `f` whose half-open
interval contains `address` populates file and line. -/
def lineAtAddress (files : List (Int × Str)) (address : Nat) (f : funcRecord)
    (sym : Symbol) : Symbol :=
  match f.lines.find? (fun l =>
      decide (address ≥ l.address) && decide (address < (l.address + l.size) % U64)) with
  | some l => { sym with File := filesGet files l.file, Line := l.line }
  | none => sym

/-- The binary-search loop over FUNC records in `SymbolForAddress`,
with Go's wrapping `uint64` addition in the containment test.  The extra
`fuel` argument bounds the number of iterations to make the loop
structurally recursive; every call supplies at least `high - low`, which
the halving loop never exhausts. -/
def funcSearch (files : List (Int × Str)) (funcs : List funcRecord)
    (address : Nat) : Nat → Nat → Nat → Option Symbol
  | _, _, 0 => none
  | low, high, fuel + 1 =>
    if low < high then
      let mid := low + (high - low) / 2
      let f := funcs.getD mid default
      if address ≥ f.address ∧ address < (f.address + f.size) % U64 then
        some (lineAtAddress files address f { Function := f.name })
      else if address > f.address then
        funcSearch files funcs address (mid + 1) high fuel
      else
        funcSearch files funcs address low mid fuel
    else none

/-- `sort.Search(n, f)` from Go's standard library: the binary search
returning the least index for a monotone predicate (with the same
iteration bound as `funcSearch`). -/
def goSearch (f : Nat → Bool) : Nat → Nat → Nat → Nat
  | i, _, 0 => i
  | i, j, fuel + 1 =>
    if i < j then
      let m := (i + j) / 2
      if !f m then goSearch f (m + 1) j fuel else goSearch f i m fuel
    else i

/-- `SymbolForAddress`: binary-search the FUNC records; on a miss,
upper-bound search the PUBLIC records and take the record before the
found index. -/
def SymbolForAddress (b : breakpadFile) (address : Nat) : Option Symbol :=
  match funcSearch b.files b.funcs address 0 b.funcs.length b.funcs.length with
  | some sym => some sym
  | none =>
    let l := b.publics.length
    let i := goSearch (fun i => decide ((b.publics.getD i default).address > address)) 0 l l
    if i ≤ l ∧ i > 0 then
      some { Function := (b.publics.getD (i - 1) default).name }
    else none

/-- The decoded table of a symbol file (useful for concrete witnesses). -/
def tableOf (data : Str) : breakpadFile :=
  (parseBreakpad data).toOption.getD default

instance {ε α : Type} [DecidableEq ε] [DecidableEq α] : DecidableEq (Except ε α) := by
  intro a b
  cases a with
  | error e =>
    cases b with
    | error e' => exact decidable_of_iff (e = e') (by simp)
    | ok v' => exact isFalse (by simp)
  | ok v =>
    cases b with
    | error e' => exact isFalse (by simp)
    | ok v' => exact decidable_of_iff (v = v') (by simp)

/-! ## Ordering facts about the sort step -/

/-- The record order used by `funcList.Less`. -/
def funcLE (f g : funcRecord) : Prop := f.address ≤ g.address

instance : DecidableRel funcLE := fun f g => inferInstanceAs (Decidable (f.address ≤ g.address))

theorem mem_insertByAddress {x f : funcRecord} {l : List funcRecord} :
    x ∈ insertByAddress f l ↔ x = f ∨ x ∈ l := by
  induction l with
  | nil => simp [insertByAddress]
  | cons g rest ih =>
    by_cases h : f.address ≤ g.address
    · simp only [insertByAddress, if_pos h, List.mem_cons]
    · simp only [insertByAddress, if_neg h, List.mem_cons, ih]
      tauto

theorem insertByAddress_perm (f : funcRecord) (l : List funcRecord) :
    List.Perm (insertByAddress f l) (f :: l) := by
  induction l with
  | nil => simp [insertByAddress]
  | cons g rest ih =>
    by_cases h : f.address ≤ g.address
    · simp [insertByAddress, h]
    · simp only [insertByAddress, if_neg h]
      exact List.Perm.trans (ih.cons g) (List.Perm.swap f g rest)

theorem sortByAddress_perm (l : List funcRecord) :
    List.Perm (sortByAddress l) l := by
  induction l with
  | nil => simp [sortByAddress]
  | cons f rest ih =>
    exact List.Perm.trans (insertByAddress_perm f (sortByAddress rest)) (ih.cons f)

theorem sorted_insertByAddress {f : funcRecord} {l : List funcRecord}
    (h : l.Sorted funcLE) : (insertByAddress f l).Sorted funcLE := by
  induction l with
  | nil => simp [insertByAddress, List.Sorted]
  | cons g rest ih =>
    rw [List.sorted_cons] at h
    by_cases hle : f.address ≤ g.address
    · simp only [insertByAddress, if_pos hle]
      rw [List.sorted_cons]
      refine ⟨?_, ?_⟩
      · intro x hx
        rcases List.mem_cons.mp hx with rfl | hx'
        · exact hle
        · exact le_trans hle (h.1 x hx')
      · rw [List.sorted_cons]; exact h
    · simp only [insertByAddress, if_neg hle]
      rw [List.sorted_cons]
      refine ⟨?_, ih h.2⟩
      intro x hx
      rcases mem_insertByAddress.mp hx with rfl | hx'
      · exact le_of_not_le hle
      · exact h.1 x hx'

theorem sorted_sortByAddress (l : List funcRecord) :
    (sortByAddress l).Sorted funcLE := by
  induction l with
  | nil => simp [sortByAddress, List.Sorted]
  | cons f rest ih => exact sorted_insertByAddress ih

/-- Every successfully decoded table has its FUNC and PUBLIC lists
sorted by ascending address (the final `sort.Sort` calls). -/
theorem parseBreakpad_ok_sorted {data : Str} {b : breakpadFile}
    (h : parseBreakpad data = .ok b) :
    b.funcs.Sorted funcLE ∧ b.publics.Sorted funcLE := by
  unfold parseBreakpad at h
  cases hr : parseRecords {} (completeLines data) with
  | error e => rw [hr] at h; cases h
  | ok b' =>
    rw [hr] at h
    cases h
    exact ⟨sorted_sortByAddress _, sorted_sortByAddress _⟩

/-! ## C4: sortedness after ingest -/

/-- C4: after every successful symbol-file ingest, both the `funcs` list
and the `publics` list of the resulting table are sorted by ascending
address, whatever the order of FUNC and PUBLIC records in the input. -/
theorem funcsAndPublicsSortedAfterIngest (data : Str) (b : breakpadFile)
    (h : parseBreakpad data = .ok b) :
    b.funcs.Sorted funcLE ∧ b.publics.Sorted funcLE :=
  parseBreakpad_ok_sorted h

/-- An input whose FUNC records appear in descending address order and
whose PUBLIC records are interleaved out of order. -/
def c4Data : Str :=
  str "MODULE mac x86 AAAA m\nPUBLIC ff 0 pubhigh\nFUNC 20 5 0 late\nFUNC 8 4 0 early\nPUBLIC 3 0 publow\n"

/-- Witness for C4 at a concrete out-of-order input. -/
theorem funcsAndPublicsSortedAfterIngest_witness :
    parseBreakpad c4Data = .ok (tableOf c4Data) ∧
      (tableOf c4Data).funcs.Sorted funcLE ∧
      (tableOf c4Data).publics.Sorted funcLE :=
  ⟨by decide, funcsAndPublicsSortedAfterIngest c4Data (tableOf c4Data) (by decide)⟩

/-! ## C3: the LINE file-number parse error is swallowed -/

/-- A symbol file whose LINE record carries the unparseable file number
`zzz`. -/
def c3Data : Str :=
  str "MODULE mac x86 AAAA m\nFUNC 0 10 0 f\n0 4 1 zzz\n"

/-- C3 (code bug): decoding an input whose LINE record has an
unparseable file number succeeds — the decoder stores the record with
file number `0` — although `strconv.ParseInt` rejects the field; the
source builds the `parse line file number` error and then drops it
instead of returning it. -/
theorem lineFileNumberErrorSwallowed :
    (goParseInt64 (str "zzz")).2 = false ∧
      parseBreakpad c3Data =
        .ok { osname := str "mac", arch := str "x86", ident := str "AAAA",
              module := str "m", files := [],
              funcs := [⟨0, 0x10, str "f", [⟨0, 4, 1, 0⟩]⟩],
              lastFunc := true, publics := [] } := by
  constructor
  · decide
  · decide

/-! ## C10: an unterminated final line is silently discarded -/

/-- A newline-free buffer yields no complete line at all. -/
theorem completeLinesAux_no_newline {tail : Str} (ht : ∀ c ∈ tail, c ≠ '\n') :
    ∀ cur, completeLinesAux cur tail = [] := by
  induction tail with
  | nil => intro cur; rfl
  | cons c rest ih =>
    intro cur
    have hc : c ≠ '\n' := ht c (List.mem_cons_self c rest)
    simp only [completeLinesAux, if_neg hc]
    exact ih (fun d hd => ht d (List.mem_cons_of_mem c hd)) _

/-- Appending newline-free text to a newline-terminated buffer does not
change its complete lines. -/
theorem completeLinesAux_append {data tail : Str}
    (ht : ∀ c ∈ tail, c ≠ '\n')
    (hd : data = [] ∨ ∃ pre, data = pre ++ ['\n']) :
    ∀ cur, completeLinesAux cur (data ++ tail) = completeLinesAux cur data := by
  induction data with
  | nil =>
    intro cur
    simp only [List.nil_append]
    rw [completeLinesAux_no_newline ht]
    rfl
  | cons c rest ih =>
    intro cur
    rcases hd with hnil | ⟨pre, hpre⟩
    · cases hnil
    cases pre with
    | nil =>
      simp only [List.nil_append, List.cons.injEq] at hpre
      obtain ⟨rfl, rfl⟩ := hpre
      simp [completeLinesAux, completeLinesAux_no_newline ht]
    | cons p pre' =>
      simp only [List.cons_append, List.cons.injEq] at hpre
      obtain ⟨rfl, hrest⟩ := hpre
      have ihr := ih (Or.inr ⟨pre', hrest⟩)
      by_cases hc : c = '\n'
      · simp only [List.cons_append, completeLinesAux, if_pos hc]
        exact congrArg _ (ihr [])
      · simp only [List.cons_append, completeLinesAux, if_neg hc]
        exact ihr _

/-- C10: if the input to the symbol-file decoder does not end with a
newline, the final unterminated line contributes nothing: decoding
`data ++ tail`, with `tail` newline-free, is identical to decoding
`data` alone — the trailing record is neither parsed nor reported as an
error. -/
theorem unterminatedLastLineDiscarded (data tail : Str)
    (ht : ∀ c ∈ tail, c ≠ '\n')
    (hd : data = [] ∨ ∃ pre, data = pre ++ ['\n']) :
    parseBreakpad (data ++ tail) = parseBreakpad data := by
  unfold parseBreakpad completeLines
  rw [completeLinesAux_append ht hd]

/-- Witness for C10: a trailing `FUNC` record on an unterminated last
line is absent from the decoded table even though ingest succeeds. -/
theorem unterminatedLastLineDiscarded_witness :
    parseBreakpad (str "MODULE mac x86 AAAA m\n" ++ str "FUNC 0 10 0 f") =
        parseBreakpad (str "MODULE mac x86 AAAA m\n") ∧
      (parseBreakpad (str "MODULE mac x86 AAAA m\n" ++ str "FUNC 0 10 0 f")).isOk = true ∧
      (tableOf (str "MODULE mac x86 AAAA m\n" ++ str "FUNC 0 10 0 f")).funcs = [] :=
  ⟨unterminatedLastLineDiscarded _ _ (by decide)
      (Or.inr ⟨str "MODULE mac x86 AAAA m", by decide⟩),
    by decide, by decide⟩

/-! ## C7: `breakpadUUID` normalization -/

/-- An entry of the Apple parser's binary-image table. -/
structure binaryImage where
  baseAddress : Nat := 0
  name : Str := []
  ident : Str := []
  path : Str := []
  deriving Repr, DecidableEq

instance : Inhabited binaryImage := ⟨{}⟩

/-- `binaryImage.breakpadName`: the basename of the image path. -/
def binaryImage.breakpadName (i : binaryImage) : Str := goPathBase i.path

/-- `binaryImage.breakpadUUID`: strip `-` from the raw identifier,
right-pad with `0` whenever the result is shorter than 33 characters,
and uppercase. -/
def binaryImage.breakpadUUID (i : binaryImage) : Str :=
  let ident := i.ident.filter (· != '-')
  let ident :=
    if ident.length < 33 then ident ++ List.replicate (33 - ident.length) '0'
    else ident
  ident.map upChar

theorem toNat_ofNat_valid {n : Nat} (h : n < 55296) : (Char.ofNat n).toNat = n := by
  have hv : n.isValidChar := Or.inl h
  unfold Char.ofNat
  rw [dif_pos hv]
  unfold Char.ofNatAux Char.toNat
  simp [UInt32.toNat]

theorem upChar_ne_dash {c : Char} (h : c ≠ '-') : upChar c ≠ '-' := by
  unfold upChar
  split
  · rename_i hr
    intro heq
    have := congrArg Char.toNat heq
    rw [toNat_ofNat_valid (by omega)] at this
    have hdash : ('-').toNat = 45 := by decide
    omega
  · exact h

theorem upChar_not_lower (c : Char) :
    ¬(97 ≤ (upChar c).toNat ∧ (upChar c).toNat ≤ 122) := by
  unfold upChar
  split
  · rename_i hr
    rw [toNat_ofNat_valid (by omega)]
    omega
  · rename_i hr
    exact hr

/-- C7 (amended): `breakpadUUID` equals `uppercase(strip('-', rawIdent))`
right-padded with `0` to a length of at least 33: exactly 33 when the
stripped identifier has at most 33 characters, and the stripped length —
with no padding — otherwise.  The output never contains `-` and contains
no lowercase ASCII letter. -/
theorem breakpadUUIDNormalization (img : binaryImage) :
    img.breakpadUUID =
        (img.ident.filter (· != '-')).map upChar ++
          List.replicate (33 - (img.ident.filter (· != '-')).length) '0' ∧
      img.breakpadUUID.length = max 33 (img.ident.filter (· != '-')).length ∧
      '-' ∉ img.breakpadUUID ∧
      ∀ c ∈ img.breakpadUUID, ¬(97 ≤ c.toNat ∧ c.toNat ≤ 122) := by
  have hzero : upChar '0' = '0' := by decide
  unfold binaryImage.breakpadUUID
  set s := img.ident.filter (· != '-') with hs
  refine ⟨?_, ?_, ?_, ?_⟩
  · by_cases hlen : s.length < 33
    · simp only [if_pos hlen, List.map_append, List.map_replicate, hzero]
    · simp only [if_neg hlen]
      have : 33 - s.length = 0 := by omega
      rw [this]
      simp
  · by_cases hlen : s.length < 33
    · simp only [if_pos hlen, List.length_map, List.length_append,
        List.length_replicate]
      omega
    · simp only [if_neg hlen, List.length_map]
      omega
  · intro hmem
    rw [List.mem_map] at hmem
    obtain ⟨d, hd, hdeq⟩ := hmem
    have hdne : d ≠ '-' := by
      by_cases hlen : s.length < 33
      · rw [if_pos hlen] at hd
        rcases List.mem_append.mp hd with hd' | hd'
        · have := List.mem_filter.mp (hs ▸ hd')
          simpa using this.2
        · have := List.eq_of_mem_replicate hd'
          simp [this]
      · rw [if_neg hlen] at hd
        have := List.mem_filter.mp (hs ▸ hd)
        simpa using this.2
    exact upChar_ne_dash hdne hdeq
  · intro c hmem
    rw [List.mem_map] at hmem
    obtain ⟨d, _, hdeq⟩ := hmem
    rw [← hdeq]
    exact upChar_not_lower d

/-- Counterexample for C7 as stated: an identifier that is 34 characters
long after stripping yields a 34-character UUID, not one of exactly 33
characters. -/
theorem breakpadUUIDNotAlways33 :
    (binaryImage.breakpadUUID { ident := List.replicate 34 'a' }).length = 34 ∧
      (34 : Nat) ≠ 33 :=
  ⟨by decide, by decide⟩

/-! ## Integer sorting (`sort.Ints`) -/

/-- Insert into an ascending list of thread ids. -/
def insertInt (x : Int) : List Int → List Int
  | [] => [x]
  | y :: rest => if x ≤ y then x :: y :: rest else y :: insertInt x rest

/-- `sort.Ints`: ascending order (modelled by insertion sort; the claim
targets only the resulting order). -/
def sortInts : List Int → List Int
  | [] => []
  | x :: rest => insertInt x (sortInts rest)

theorem mem_insertInt {x y : Int} {l : List Int} :
    x ∈ insertInt y l ↔ x = y ∨ x ∈ l := by
  induction l with
  | nil => simp [insertInt]
  | cons z rest ih =>
    by_cases h : y ≤ z
    · simp only [insertInt, if_pos h, List.mem_cons]
    · simp only [insertInt, if_neg h, List.mem_cons, ih]
      tauto

theorem insertInt_perm (x : Int) (l : List Int) :
    List.Perm (insertInt x l) (x :: l) := by
  induction l with
  | nil => simp [insertInt]
  | cons y rest ih =>
    by_cases h : x ≤ y
    · simp [insertInt, h]
    · simp only [insertInt, if_neg h]
      exact List.Perm.trans (ih.cons y) (List.Perm.swap x y rest)

theorem sortInts_perm (l : List Int) : List.Perm (sortInts l) l := by
  induction l with
  | nil => simp [sortInts]
  | cons x rest ih =>
    exact List.Perm.trans (insertInt_perm x (sortInts rest)) (ih.cons x)

theorem sorted_insertInt {x : Int} {l : List Int}
    (h : l.Sorted (· ≤ ·)) : (insertInt x l).Sorted (· ≤ ·) := by
  induction l with
  | nil => simp [insertInt]
  | cons y rest ih =>
    rw [List.sorted_cons] at h
    by_cases hle : x ≤ y
    · simp only [insertInt, if_pos hle]
      rw [List.sorted_cons]
      refine ⟨?_, ?_⟩
      · intro z hz
        rcases List.mem_cons.mp hz with rfl | hz'
        · exact hle
        · exact le_trans hle (h.1 z hz')
      · rw [List.sorted_cons]; exact h
    · simp only [insertInt, if_neg hle]
      rw [List.sorted_cons]
      refine ⟨?_, ih h.2⟩
      intro z hz
      rcases mem_insertInt.mp hz with rfl | hz'
      · exact le_of_not_le hle
      · exact h.1 z hz'

theorem sorted_sortInts (l : List Int) : (sortInts l).Sorted (· ≤ ·) := by
  induction l with
  | nil => simp [sortInts]
  | cons x rest ih => exact sorted_insertInt ih

/-- With distinct elements the ascending sort is strictly ascending. -/
theorem sorted_lt_sortInts {l : List Int} (h : l.Nodup) :
    (sortInts l).Sorted (· < ·) := by
  have hnodup : (sortInts l).Nodup := (sortInts_perm l).nodup_iff.mpr h
  have hle := sorted_sortInts l
  exact List.Pairwise.imp₂ (fun _ _ hle hne => lt_of_le_of_ne hle hne) hle hnodup

/-! ## Stackwalk renderer (`stackwalkParser.Symbolize`) -/

/-- One parsed stackwalk frame. -/
structure stackwalkFrame where
  module : Str
  address : Nat
  deriving Repr, DecidableEq

/-- The post-ingest state of the stackwalk parser that rendering reads. -/
structure stackwalkState where
  threads : List (Int × List stackwalkFrame) := []
  crashedThread : Int := 0
  crashInfo : Str := []
  deriving Repr, DecidableEq

/-- Go map read keyed by module name over the symbol-table list; a later
table with the same name overwrites an earlier one, exactly as the
`tableMap[table.ModuleName()] = table` insertion loops do. -/
def tableForName (tables : List breakpadFile) (name : Str) : Option breakpadFile :=
  tables.foldl (fun acc t => if t.module = name then some t else acc) none

/-- Frame-list lookup in the thread map. -/
def threadFrames (threads : List (Int × List stackwalkFrame)) (t : Int) :
    List stackwalkFrame :=
  match threads.find? (fun p => p.1 = t) with
  | some p => p.2
  | none => []

/-- The `noSymbol` format `"%d\t [%s\t +\t %#x]\n"`. -/
def swNoSymbol (i : Nat) (frame : stackwalkFrame) : Str :=
  natToDec i ++ str "\t [" ++ frame.module ++ str "\t +\t " ++
    goHashHex frame.address ++ str "]\n"

/-- One rendered stackwalk frame line. -/
def swFrameLine (tables : List breakpadFile) (i : Nat) (frame : stackwalkFrame) : Str :=
  match tableForName tables frame.module with
  | none => swNoSymbol i frame
  | some table =>
    match SymbolForAddress table frame.address with
    | none => swNoSymbol i frame
    | some symbol =>
      let line := symbol.FileLine
      let line := if line = [] then goHashHex frame.address else line
      natToDec i ++ str "\t [" ++ frame.module ++ str "\t -\t " ++ line ++
        str "] " ++ symbol.Function ++ str "\n"

/-- The frame loop of `stackwalkParser.Symbolize`. -/
def swFrames (tables : List breakpadFile) (i : Nat) :
    List stackwalkFrame → Str
  | [] => []
  | f :: rest => swFrameLine tables i f ++ swFrames tables (i + 1) rest

/-- The thread loop of `stackwalkParser.Symbolize`, carrying the
`lastThread` variable (initially `-1`); the blank line before a thread
header is emitted only when the (just updated) `lastThread` is not 0. -/
def swThreads (tables : List breakpadFile) (st : stackwalkState)
    (lastThread : Int) : List Int → Str
  | [] => []
  | t :: rest =>
    let hdr :=
      if lastThread < t then
        (if t ≠ 0 then str "\n" else []) ++ str "Thread " ++ intToDec t
      else []
    let lastThread' := if lastThread < t then t else lastThread
    let crash :=
      if t = st.crashedThread then
        str " ( * CRASHED * " ++ st.crashInfo ++ str " )"
      else []
    hdr ++ crash ++ str "\n" ++ swFrames tables 0 (threadFrames st.threads t) ++
      swThreads tables st lastThread' rest

/-- `stackwalkParser.Symbolize`: collect the thread ids, sort ascending,
and emit each thread. -/
def stackwalkSymbolize (st : stackwalkState) (tables : List breakpadFile) : Str :=
  swThreads tables st (-1) (sortInts (st.threads.map Prod.fst))

/-- What one thread contributes to the output: a blank line for every
thread id other than 0, the header, the crash marker, and the frames. -/
def swThreadBlock (tables : List breakpadFile) (st : stackwalkState) (t : Int) : Str :=
  (if t ≠ 0 then str "\n" else []) ++ str "Thread " ++ intToDec t ++
    (if t = st.crashedThread then str " ( * CRASHED * " ++ st.crashInfo ++ str " )"
     else []) ++ str "\n" ++ swFrames tables 0 (threadFrames st.threads t)

theorem swThreads_eq_blocks (tables : List breakpadFile) (st : stackwalkState) :
    ∀ (ids : List Int) (last : Int), ids.Sorted (· < ·) →
      (∀ t ∈ ids, last < t) →
      swThreads tables st last ids = (ids.map (swThreadBlock tables st)).flatten := by
  intro ids
  induction ids with
  | nil => intro last _ _; simp [swThreads]
  | cons t rest ih =>
    intro last hsorted hlast
    rw [List.sorted_cons] at hsorted
    have hlt : last < t := hlast t (List.mem_cons_self t rest)
    simp only [swThreads, if_pos hlt, List.map_cons, List.flatten]
    rw [ih t hsorted.2 (fun r hr => hsorted.1 r hr)]
    simp [swThreadBlock, List.append_assoc]

/-- C6 (amended): rendered threads appear in ascending id order, and each
thread's output is preceded by a blank line except a thread with id 0
(which, having the least possible nonnegative id, can only be the first);
when the lowest thread id is nonzero even the very first thread is
preceded by a blank line. -/
theorem stackwalkThreadsAscendingBlankExceptZero (st : stackwalkState)
    (tables : List breakpadFile)
    (hnodup : (st.threads.map Prod.fst).Nodup)
    (hnonneg : ∀ t ∈ st.threads.map Prod.fst, 0 ≤ t) :
    stackwalkSymbolize st tables =
        ((sortInts (st.threads.map Prod.fst)).map (swThreadBlock tables st)).flatten ∧
      (sortInts (st.threads.map Prod.fst)).Sorted (· ≤ ·) := by
  constructor
  · unfold stackwalkSymbolize
    apply swThreads_eq_blocks
    · exact sorted_lt_sortInts hnodup
    · intro t ht
      have : t ∈ st.threads.map Prod.fst := (sortInts_perm _).mem_iff.mp ht
      have := hnonneg t this
      omega
  · exact sorted_sortInts _

/-- The state decoded from a report whose only thread has id 5. -/
def c6State : stackwalkState :=
  { threads := [(5, [⟨str "mod", 0⟩])], crashedThread := 0, crashInfo := [] }

/-- Counterexample for C6 as stated: when the single (hence very first)
thread has id 5, its output is still preceded by a blank line — the
rendered string begins with `'\n'`, not with `Thread`. -/
theorem stackwalkBlankLineBeforeFirstThread :
    stackwalkSymbolize c6State [] = str "\nThread 5\n0\t [mod\t +\t 0x0]\n" ∧
      (stackwalkSymbolize c6State []).take 8 ≠ str "Thread 5" :=
  ⟨by decide, by decide⟩

/-- A two-thread state for the C6 witness. -/
def c6WitnessState : stackwalkState :=
  { threads := [(2, []), (0, [])], crashedThread := 2, crashInfo := str "EXC @ 0x1" }

/-- Witness for C6 (amended) at a two-thread state: thread 0 gets no
blank line, thread 2 does, and the order is ascending. -/
theorem stackwalkThreadsAscendingBlankExceptZero_witness :
    ((c6WitnessState.threads.map Prod.fst).Nodup ∧
        (∀ t ∈ c6WitnessState.threads.map Prod.fst, 0 ≤ t)) ∧
      (stackwalkSymbolize c6WitnessState [] =
          ((sortInts (c6WitnessState.threads.map Prod.fst)).map
              (swThreadBlock [] c6WitnessState)).flatten ∧
        (sortInts (c6WitnessState.threads.map Prod.fst)).Sorted (· ≤ ·)) :=
  ⟨⟨by decide, by decide⟩,
    stackwalkThreadsAscendingBlankExceptZero c6WitnessState [] (by decide) (by decide)⟩

/-! ## Generator parser (`GeneratorParser` in `parser/generator.go`) -/

/-- `breakpad.SupplierRequest`: a module descriptor. -/
structure SupplierRequest where
  ModuleName : Str := []
  Identifier : Str := []
  deriving Repr, DecidableEq

/-- `GIPStackFrame`. -/
structure GIPStackFrame where
  RawAddress : Nat := 0
  Address : Nat := 0
  Module : SupplierRequest := {}
  Placeholder : Str := []
  deriving Repr, DecidableEq

/-- The generator parser's mutable state: the thread map (modelled as an
association list in key-insertion order) and the deduplicating module
map. -/
structure GeneratorState where
  threadList : List (Int × List GIPStackFrame) := []
  modules : List (Str × SupplierRequest) := []
  deriving Repr, DecidableEq

/-- Append a frame to a thread's stack, creating the thread on first
use. -/
def tlAppend (thread : Int) (frame : GIPStackFrame) :
    List (Int × List GIPStackFrame) → List (Int × List GIPStackFrame)
  | [] => [(thread, [frame])]
  | (t, fs) :: rest =>
    if t = thread then (t, fs ++ [frame]) :: rest
    else (t, fs) :: tlAppend thread frame rest

/-- `GeneratorParser.EmitStackFrame`: append the frame to its thread and
record the frame's module (first occurrence wins) unless the frame is a
placeholder. -/
def EmitStackFrame (gip : GeneratorState) (thread : Int) (frame : GIPStackFrame) :
    GeneratorState :=
  { gip with
    threadList := tlAppend thread frame gip.threadList
    modules :=
      if frame.Placeholder = [] then
        if (gip.modules.find? (fun p => p.1 = frame.Module.ModuleName)).isSome then
          gip.modules
        else gip.modules ++ [(frame.Module.ModuleName, frame.Module)]
      else gip.modules }

/-- Fold a whole emission run from the empty state. -/
def runEmits (emits : List (Int × GIPStackFrame)) : GeneratorState :=
  emits.foldl (fun g p => EmitStackFrame g p.1 p.2) {}

/-- The frames of one thread as the render loop reads them. -/
def gipFrames (tl : List (Int × List GIPStackFrame)) (t : Int) :
    List GIPStackFrame :=
  match tl.find? (fun p => p.1 = t) with
  | some p => p.2
  | none => []

/-- One rendered generator frame line
(`"%#08x [%s %s\t %s] %s\n"` with the `sep`/`fileLine`/`function`
variables assigned as in the loop body of `GeneratorParser.Symbolize`). -/
def gipFrameLine (tables : List breakpadFile) (frame : GIPStackFrame) : Str :=
  let sfl :=
    if frame.Placeholder ≠ [] then (([] : Str), ([] : Str), frame.Placeholder)
    else
      match (match tableForName tables frame.Module.ModuleName with
             | none => none
             | some t => SymbolForAddress t frame.Address) with
      | none => (str "+", goHashHex frame.Address, ([] : Str))
      | some symbol =>
        if symbol.FileLine = [] then (str "+", goHashHex frame.Address, symbol.Function)
        else (str "-", symbol.FileLine, symbol.Function)
  goHash08x frame.RawAddress ++ str " [" ++ frame.Module.ModuleName ++ str " " ++
    sfl.1 ++ str "\t " ++ sfl.2.1 ++ str "] " ++ sfl.2.2 ++ str "\n"

/-- The frame loop of `GeneratorParser.Symbolize`. -/
def gipFramesOut (tables : List breakpadFile) : List GIPStackFrame → Str
  | [] => []
  | f :: rest => gipFrameLine tables f ++ gipFramesOut tables rest

/-- The thread loop of `GeneratorParser.Symbolize`. -/
def gipThreadsOut (tables : List breakpadFile)
    (tl : List (Int × List GIPStackFrame)) (showHeaders : Bool) :
    List Int → Str
  | [] => []
  | t :: rest =>
    (if showHeaders then str "Thread " ++ intToDec t ++ str "\n" else []) ++
      gipFramesOut tables (gipFrames tl t) ++
      gipThreadsOut tables tl showHeaders rest

/-- `GeneratorParser.Symbolize`: headers only with more than one thread;
threads rendered in ascending id order. -/
def gipSymbolize (gip : GeneratorState) (tables : List breakpadFile) : Str :=
  gipThreadsOut tables gip.threadList (gip.threadList.length > 1)
    (sortInts (gip.threadList.map Prod.fst))

/-! ## C5: the generator frame-line format -/

/-- The frame line as the (amended) claim words it: `<rawAddress as
%#08x> [<moduleName> <sep>\t <locator>] <function>` — `sep` is `-` with
`locator = basename(file):line` when the lookup finds a symbol carrying
file/line information, and `+` with `locator` the hex of the relative
address otherwise; `function` is the symbol name when a symbol was
found, empty otherwise.  (Written from the claim, for comparison with
the rendering code.) -/
def gipClaimFrameLine (tables : List breakpadFile) (frame : GIPStackFrame) : Str :=
  let symbol :=
    match tableForName tables frame.Module.ModuleName with
    | none => none
    | some t => SymbolForAddress t frame.Address
  match symbol with
  | some s =>
    if s.FileLine ≠ [] then
      goHash08x frame.RawAddress ++ str " [" ++ frame.Module.ModuleName ++
        str " -\t " ++ s.FileLine ++ str "] " ++ s.Function ++ str "\n"
    else
      goHash08x frame.RawAddress ++ str " [" ++ frame.Module.ModuleName ++
        str " +\t " ++ goHashHex frame.Address ++ str "] " ++ s.Function ++ str "\n"
  | none =>
    goHash08x frame.RawAddress ++ str " [" ++ frame.Module.ModuleName ++
      str " +\t " ++ goHashHex frame.Address ++ str "] " ++ str "\n"

theorem gipFrameLine_eq_claim (tables : List breakpadFile) (frame : GIPStackFrame)
    (h : frame.Placeholder = []) :
    gipFrameLine tables frame = gipClaimFrameLine tables frame := by
  unfold gipFrameLine gipClaimFrameLine
  simp only [h]
  cases hsym : (match tableForName tables frame.Module.ModuleName with
               | none => none
               | some t => SymbolForAddress t frame.Address) with
  | none => simp [str]
  | some s =>
    by_cases hfl : s.FileLine = []
    · simp [hfl, str]
    · simp [hfl, str]

theorem gipFramesOut_eq_flatten (tables : List breakpadFile) :
    ∀ frames : List GIPStackFrame,
      gipFramesOut tables frames = (frames.map (gipFrameLine tables)).flatten := by
  intro frames
  induction frames with
  | nil => rfl
  | cons f rest ih => simp [gipFramesOut, ih]

theorem gipThreadsOut_eq_flatten (tables : List breakpadFile)
    (tl : List (Int × List GIPStackFrame)) (showHeaders : Bool) :
    ∀ ids : List Int,
      gipThreadsOut tables tl showHeaders ids =
        (ids.map (fun t =>
          (if showHeaders then str "Thread " ++ intToDec t ++ str "\n" else []) ++
            gipFramesOut tables (gipFrames tl t))).flatten := by
  intro ids
  induction ids with
  | nil => rfl
  | cons t rest ih => simp [gipThreadsOut, ih]

/-- C5 (amended): the generator render is the concatenation, over
ascending thread ids, of an optional header plus one line per frame, and
every non-placeholder frame line has the claimed form with the raw
address printed as `%#08x` — `0x`-prefixed hex zero-padded to a *total*
width of eight (not `0x` followed by eight padded digits). -/
theorem generatorFrameLineFormat (gip : GeneratorState) (tables : List breakpadFile) :
    gipSymbolize gip tables =
        ((sortInts (gip.threadList.map Prod.fst)).map (fun t =>
          (if gip.threadList.length > 1 then str "Thread " ++ intToDec t ++ str "\n"
           else []) ++
            ((gipFrames gip.threadList t).map (fun f =>
              if f.Placeholder = [] then gipClaimFrameLine tables f
              else gipFrameLine tables f)).flatten)).flatten ∧
      (sortInts (gip.threadList.map Prod.fst)).Sorted (· ≤ ·) := by
  constructor
  · unfold gipSymbolize
    rw [gipThreadsOut_eq_flatten]
    congr 1
    apply List.map_congr_left
    intro t _
    congr 1
    · simp
    rw [gipFramesOut_eq_flatten]
    congr 1
    apply List.map_congr_left
    intro f _
    by_cases hph : f.Placeholder = []
    · rw [if_pos hph, gipFrameLine_eq_claim tables f hph]
    · rw [if_neg hph]
  · exact sorted_sortInts _

/-- A single non-placeholder frame at raw address `0x1000`. -/
def c5State : GeneratorState :=
  runEmits [(0, { RawAddress := 0x1000, Address := 0x1000,
                  Module := { ModuleName := str "mod" } })]

/-- Counterexample for C5 as stated: the raw address `0x1000` prints as
`0x001000` (`%#08x`: total width eight), not `0x00001000`
(`0x%08x`: eight padded digits) as the claim requires. -/
theorem generatorRawAddressPadding :
    gipSymbolize c5State [] = str "0x001000 [mod +\t 0x1000] \n" ∧
      gipSymbolize c5State [] ≠ str "0x00001000 [mod +\t 0x1000] \n" :=
  ⟨by decide, by decide⟩

/-! ## C9: render independence from thread registration order -/

theorem map_fst_tlAppend (t : Int) (f : GIPStackFrame) :
    ∀ tl : List (Int × List GIPStackFrame),
      (tlAppend t f tl).map Prod.fst =
        if t ∈ tl.map Prod.fst then tl.map Prod.fst else tl.map Prod.fst ++ [t] := by
  intro tl
  induction tl with
  | nil => simp [tlAppend]
  | cons p rest ih =>
    obtain ⟨a, fs⟩ := p
    by_cases ha : a = t
    · simp [tlAppend, ha]
    · simp only [tlAppend, if_neg ha, List.map_cons, ih]
      by_cases hmem : t ∈ rest.map Prod.fst
      · rw [if_pos hmem, if_pos (by simp [hmem])]
      · rw [if_neg hmem, if_neg (by simp [hmem]; exact fun h => ha h.symm)]
        simp

theorem nodup_keys_tlAppend {t : Int} {f : GIPStackFrame}
    {tl : List (Int × List GIPStackFrame)}
    (h : (tl.map Prod.fst).Nodup) : ((tlAppend t f tl).map Prod.fst).Nodup := by
  rw [map_fst_tlAppend]
  by_cases hmem : t ∈ tl.map Prod.fst
  · rwa [if_pos hmem]
  · rw [if_neg hmem]
    simp [List.nodup_append, h, hmem]

theorem runEmits_keys_nodup_aux :
    ∀ (emits : List (Int × GIPStackFrame)) (g : GeneratorState),
      (g.threadList.map Prod.fst).Nodup →
      (((emits.foldl (fun g p => EmitStackFrame g p.1 p.2) g)).threadList.map Prod.fst).Nodup := by
  intro emits
  induction emits with
  | nil => intro g h; exact h
  | cons e rest ih =>
    intro g h
    exact ih _ (nodup_keys_tlAppend h)

theorem runEmits_keys_nodup (emits : List (Int × GIPStackFrame)) :
    ((runEmits emits).threadList.map Prod.fst).Nodup :=
  runEmits_keys_nodup_aux emits {} List.nodup_nil

theorem find?_eq_some_of_mem {α : Type} {p : α → Bool} {e : α} :
    ∀ {l : List α}, e ∈ l → p e = true → (∀ e' ∈ l, p e' = true → e' = e) →
      l.find? p = some e := by
  intro l
  induction l with
  | nil => intro h; cases h
  | cons a rest ih =>
    intro hmem hp huniq
    by_cases ha : p a = true
    · rw [List.find?_cons_of_pos _ ha]
      rw [huniq a (List.mem_cons_self a rest) ha]
    · rw [List.find?_cons_of_neg _ (by simpa using ha)]
      have hne : e ≠ a := fun he => ha (he ▸ hp)
      have hmem' : e ∈ rest := by
        rcases List.mem_cons.mp hmem with rfl | h'
        · exact absurd rfl hne
        · exact h'
      exact ih hmem' hp (fun e' he' hpe' => huniq e' (List.mem_cons_of_mem a he') hpe')

/-- With pairwise-distinct keys, two entries sharing a key coincide. -/
theorem eq_of_pairwise_keys {α : Type} :
    ∀ {l : List (Int × α)}, l.Pairwise (fun a b => a.1 ≠ b.1) →
      ∀ {e e' : Int × α}, e ∈ l → e' ∈ l → e.1 = e'.1 → e = e' := by
  intro l
  induction l with
  | nil => intro _ e e' he; cases he
  | cons a rest ih =>
    intro h e e' he he' hk
    rw [List.pairwise_cons] at h
    rcases List.mem_cons.mp he with rfl | he1
    · rcases List.mem_cons.mp he' with rfl | he2
      · rfl
      · exact absurd hk (h.1 e' he2)
    · rcases List.mem_cons.mp he' with rfl | he2
      · exact absurd hk.symm (h.1 e he1)
      · exact ih h.2 he1 he2 hk

theorem find?_key_eq_of_perm {α : Type} {l1 l2 : List (Int × α)}
    (hperm : List.Perm l1 l2) (hnodup : (l1.map Prod.fst).Nodup) (t : Int) :
    l1.find? (fun p => p.1 = t) = l2.find? (fun p => p.1 = t) := by
  have hpair1 : l1.Pairwise (fun a b => a.1 ≠ b.1) := by
    have := hnodup
    rw [List.Nodup, List.pairwise_map] at this
    exact this
  cases hfind : l1.find? (fun p => p.1 = t) with
  | none =>
    rw [List.find?_eq_none] at hfind
    symm
    rw [List.find?_eq_none]
    intro x hx
    exact hfind x (hperm.mem_iff.mpr hx)
  | some e =>
    have hpe : (e.1 = t) := by simpa using List.find?_some hfind
    have hmem : e ∈ l1 := List.mem_of_find?_eq_some hfind
    symm
    apply find?_eq_some_of_mem (hperm.mem_iff.mp hmem) (by simpa using hpe)
    intro e' he' hpe'
    have hpe'' : e'.1 = t := by simpa using hpe'
    exact eq_of_pairwise_keys hpair1 (hperm.mem_iff.mpr he') hmem (by rw [hpe'', hpe])

/-- The render reads a thread's frames identically from permuted thread
maps with distinct keys. -/
theorem gipFrames_eq_of_perm {l1 l2 : List (Int × List GIPStackFrame)}
    (hperm : List.Perm l1 l2) (hnodup : (l1.map Prod.fst).Nodup) (t : Int) :
    gipFrames l1 t = gipFrames l2 t := by
  unfold gipFrames
  rw [find?_key_eq_of_perm hperm hnodup t]

theorem gipThreadsOut_congr (tables : List breakpadFile)
    {tl1 tl2 : List (Int × List GIPStackFrame)} (showHeaders : Bool)
    (h : ∀ t, gipFrames tl1 t = gipFrames tl2 t) :
    ∀ ids : List Int,
      gipThreadsOut tables tl1 showHeaders ids =
        gipThreadsOut tables tl2 showHeaders ids := by
  intro ids
  induction ids with
  | nil => rfl
  | cons t rest ih =>
    simp only [gipThreadsOut, h t, ih]

/-- C9: the generator render does not depend on the order in which the
threads were registered — two emission runs whose resulting per-thread
frame sequences agree (their thread maps are permutations of one
another) render the same string, and the threads are listed in ascending
numeric id order. -/
theorem generatorOutputIndependentOfEmissionOrder
    (emits1 emits2 : List (Int × GIPStackFrame)) (tables : List breakpadFile)
    (hperm : List.Perm (runEmits emits1).threadList (runEmits emits2).threadList) :
    gipSymbolize (runEmits emits1) tables = gipSymbolize (runEmits emits2) tables ∧
      (sortInts ((runEmits emits1).threadList.map Prod.fst)).Sorted (· ≤ ·) := by
  have hnodup := runEmits_keys_nodup emits1
  have hkeys : List.Perm ((runEmits emits1).threadList.map Prod.fst)
      ((runEmits emits2).threadList.map Prod.fst) := hperm.map Prod.fst
  have hsort : sortInts ((runEmits emits1).threadList.map Prod.fst) =
      sortInts ((runEmits emits2).threadList.map Prod.fst) :=
    List.eq_of_perm_of_sorted
      (((sortInts_perm _).trans hkeys).trans (sortInts_perm _).symm)
      (sorted_sortInts _) (sorted_sortInts _)
  have hlen : (runEmits emits1).threadList.length =
      (runEmits emits2).threadList.length := hperm.length_eq
  constructor
  · unfold gipSymbolize
    rw [hsort, hlen]
    exact gipThreadsOut_congr tables _ (gipFrames_eq_of_perm hperm hnodup) _
  · exact sorted_sortInts _

/-- Two emission runs with the same per-thread frames, registered in
the opposite thread order. -/
def c9Emits1 : List (Int × GIPStackFrame) :=
  [(2, { RawAddress := 0x2, Address := 0x2, Module := { ModuleName := str "m" } }),
   (1, { RawAddress := 0x1, Address := 0x1, Placeholder := str "PH" })]

/-- The same frames as `c9Emits1`, threads registered the other way
around. -/
def c9Emits2 : List (Int × GIPStackFrame) :=
  [(1, { RawAddress := 0x1, Address := 0x1, Placeholder := str "PH" }),
   (2, { RawAddress := 0x2, Address := 0x2, Module := { ModuleName := str "m" } })]

/-- Witness for C9 at a concrete pair of emission orders. -/
theorem generatorOutputIndependentOfEmissionOrder_witness :
    List.Perm (runEmits c9Emits1).threadList (runEmits c9Emits2).threadList ∧
      (gipSymbolize (runEmits c9Emits1) [] = gipSymbolize (runEmits c9Emits2) [] ∧
        (sortInts ((runEmits c9Emits1).threadList.map Prod.fst)).Sorted (· ≤ ·)) :=
  ⟨by decide, generatorOutputIndependentOfEmissionOrder c9Emits1 c9Emits2 [] (by decide)⟩

/-! ## Android parser: build-version extraction
(`androidInputParser.buildGenInputParser`) -/

/-- Non-empty all-decimal token (`[0-9]+`). -/
def isDigits (s : Str) : Bool := !s.isEmpty && s.all isDigit

/-- Split on every occurrence of `sep`. -/
def splitAllAux (sep : Char) (cur : Str) : Str → List Str
  | [] => [cur.reverse]
  | c :: rest =>
    if c = sep then cur.reverse :: splitAllAux sep [] rest
    else splitAllAux sep (c :: cur) rest

/-- Split on every occurrence of `sep` (`strings.Split`). -/
def splitAll (sep : Char) (s : Str) : List Str := splitAllAux sep [] s

/-- The format-0 version shape `([0-9]+\.)+[0-9]+` (at least one dot). -/
def isVer0 (s : Str) : Bool :=
  let parts := splitAll '.' s
  decide (parts.length ≥ 2) && parts.all isDigits

/-- The format-1 version shape `([0-9]+\.)*[0-9]+` (dots optional). -/
def isVer1 (s : Str) : Bool := (splitAll '.' s).all isDigits

/-- Consume the `(?:\([0-9]+\))*` blocks after `google-breakpad`; the
construction is deterministic because a block starts with `(` while the
continuation starts with `:`.  `none` means the whole match attempt at
this position fails.  The fuel (always called with the string length,
which each consumed block only shrinks faster than) makes the loop
structurally recursive. -/
def consumeParens : Str → Nat → Option Str
  | s, 0 => (match s with | '(' :: _ => none | s' => some s')
  | s, fuel + 1 =>
    match s with
    | '(' :: rest =>
      let ds := rest.takeWhile isDigit
      let rest' := rest.dropWhile isDigit
      if ds.isEmpty then none
      else
        match rest' with
        | ')' :: tail => consumeParens tail fuel
        | _ => none
    | s' => some s'

/-- After a literal `google-breakpad`, match `(?:\([0-9]+\))*: ` and
test the `$`-anchored remainder with `isVer`; the capture group spans
exactly that remainder. -/
def matchAfter (isVer : Str → Bool) (s : Str) : Option Str :=
  match consumeParens s s.length with
  | none => none
  | some r =>
    match r with
    | ':' :: ' ' :: ver => if isVer ver then some ver else none
    | _ => none

/-- Leftmost match of `google\-breakpad(?:\([0-9]+\))*: (VER)$`: scan
the line for the first position where the literal prefix and the rest of
the pattern succeed, returning the captured version.  Leftmost-first
regexp semantics coincide with first-successful-position scanning here
because every alternative at one position is deterministic. -/
def findBreakpadVersion (isVer : Str → Bool) : Str → Option Str
  | [] => none
  | c :: rest =>
    match (if (c :: rest).take 15 = str "google-breakpad" then
             matchAfter isVer ((c :: rest).drop 15)
           else none) with
    | some v => some v
    | none => findBreakpadVersion isVer rest

/-- `version0Line.FindStringSubmatch(line)[1]`, when the line matches. -/
def version0Match (line : Str) : Option Str := findBreakpadVersion isVer0 line

/-- `version1Line.FindStringSubmatch(line)[1]`, when the line matches. -/
def version1Match (line : Str) : Option Str := findBreakpadVersion isVer1 line

/-- The captures of the `frameLine` regex that the loop body consumes:
group 2 (frame number digits), group 4 (address), group 5 (module
path), group 7 (optional symbol). -/
structure FrameCapture where
  num : Str
  addr : Str
  module : Str
  symbol : Str
  deriving Repr, DecidableEq

/-- A scraped logcat frame (`androidFrame`). -/
structure androidFrame where
  module : Str
  address : Nat
  frameNumber : Nat
  symbol : Str
  deriving Repr, DecidableEq

/-- `strconv.ParseUint(s, 10, 0)` on a 64-bit platform. -/
def parseUintDec (s : Str) : Option Nat :=
  match s with
  | [] => none
  | _ =>
    match decAccum s 0 with
    | none => none
    | some v => if v < U64 then some v else none

/-- The frame branch of the scan loop: parse the frame number
(`ParseUint`; overflow aborts the whole ingest) and record the frame. -/
def androidFrameStep (frameMatch : Str → Option FrameCapture) (line : Str)
    (frames : List androidFrame) : Except Str (List androidFrame) :=
  match frameMatch line with
  | some cap =>
    match parseUintDec cap.num with
    | none => .error (str "Failed to parse the frame number")
    | some fnum =>
      .ok (frames ++ [{ module := cap.module,
                        address := (ParseAddress cap.addr).getD 0,
                        frameNumber := fnum, symbol := cap.symbol }])
  | none => .ok frames

/-- The line loop of `buildGenInputParser`: a format-0 match always
overwrites `version`; a format-1 match is taken only while `version` is
still empty; otherwise the line is offered to the frame regex
(abstracted as `frameMatch`, whose shape the claim does not depend
on). -/
def androidScan (frameMatch : Str → Option FrameCapture) :
    List Str → Str → List androidFrame → Except Str (Str × List androidFrame)
  | [], version, frames => .ok (version, frames)
  | line :: rest, version, frames =>
    match version0Match line with
    | some v => androidScan frameMatch rest v frames
    | none =>
      match version1Match line with
      | some v =>
        if version = [] then androidScan frameMatch rest v frames
        else
          match androidFrameStep frameMatch line frames with
          | .error e => .error e
          | .ok frames' => androidScan frameMatch rest version frames'
      | none =>
        match androidFrameStep frameMatch line frames with
        | .error e => .error e
        | .ok frames' => androidScan frameMatch rest version frames'

/-- The version handed to `retrieveChromeModule` for the module-info
lookup: the scanned version, superseded by a non-empty manually supplied
version, and fatal when neither exists (`buildGenInputParser` up to the
service call). -/
def androidVersion (frameMatch : Str → Option FrameCapture) (lines : List Str)
    (manualVersion : Str) : Except Str Str :=
  match androidScan frameMatch lines [] [] with
  | .error e => .error e
  | .ok (version, _) =>
    let version := if manualVersion ≠ [] then manualVersion else version
    if version = [] then .error (str "Version number of Chrome was not found.")
    else .ok version

/-- The version the loop leaves in `version` when started from `acc`:
the last format-0 capture if any line carries one, otherwise the first
format-1 capture when `acc` was still empty, otherwise `acc`. -/
def verSel (acc : Str) (lines : List Str) : Str :=
  match (lines.filterMap version0Match).getLast? with
  | some w => w
  | none =>
    match (lines.filterMap version1Match).head? with
    | some w => if acc = [] then w else acc
    | none => acc

/-- The version scraped from the log: last format-0 match, else first
format-1 match. -/
def scannedVersion (lines : List Str) : Option Str :=
  match (lines.filterMap version0Match).getLast? with
  | some w => some w
  | none => (lines.filterMap version1Match).head?

theorem matchAfter_isVer {isVer : Str → Bool} {s v : Str}
    (h : matchAfter isVer s = some v) : isVer v = true := by
  unfold matchAfter at h
  split at h
  · cases h
  · split at h
    · split at h
      · rename_i hver
        cases h
        exact hver
      · cases h
    · cases h

theorem findBreakpadVersion_isVer {isVer : Str → Bool} :
    ∀ {l v : Str}, findBreakpadVersion isVer l = some v → isVer v = true := by
  intro l
  induction l with
  | nil => intro v h; cases h
  | cons c rest ih =>
    intro v h
    unfold findBreakpadVersion at h
    by_cases hpre : (c :: rest).take 15 = str "google-breakpad"
    · rw [if_pos hpre] at h
      cases hm : matchAfter isVer ((c :: rest).drop 15) with
      | none => rw [hm] at h; exact ih h
      | some w =>
        rw [hm] at h
        cases h
        exact matchAfter_isVer hm
    · rw [if_neg hpre] at h
      exact ih h

theorem version0Match_ne_nil {l v : Str} (h : version0Match l = some v) : v ≠ [] := by
  intro hv
  subst hv
  have := findBreakpadVersion_isVer h
  simp [isVer0, splitAll, splitAllAux, isDigits] at this

theorem version1Match_ne_nil {l v : Str} (h : version1Match l = some v) : v ≠ [] := by
  intro hv
  subst hv
  have := findBreakpadVersion_isVer h
  simp [isVer1, splitAll, splitAllAux, isDigits] at this

theorem verSel_cons_v0 {line w : Str} (rest : List Str) (acc : Str)
    (h0 : version0Match line = some w) (hw : w ≠ []) :
    verSel acc (line :: rest) = verSel w rest := by
  unfold verSel
  rw [List.filterMap_cons_some h0]
  cases hF0 : rest.filterMap version0Match with
  | nil =>
    simp only [hF0, List.getLast?_singleton]
    cases hF1 : (rest.filterMap version1Match).head? with
    | none => simp [if_neg hw]
    | some w1 => simp [if_neg hw]
  | cons y t =>
    rw [List.getLast?_cons_cons]
    cases hx : (y :: t).getLast? with
    | some x => rfl
    | none => simp at hx

theorem verSel_cons_v1 {line w : Str} (rest : List Str)
    (h0 : version0Match line = none) (h1 : version1Match line = some w)
    (hw : w ≠ []) :
    verSel [] (line :: rest) = verSel w rest := by
  unfold verSel
  rw [List.filterMap_cons_none h0, List.filterMap_cons_some h1]
  cases hF0 : (rest.filterMap version0Match).getLast? with
  | some x => rfl
  | none =>
    simp only [List.head?_cons]
    cases hF1 : (rest.filterMap version1Match).head? with
    | none => simp [if_neg hw]
    | some w1 => simp [if_neg hw]

theorem verSel_cons_skip {line : Str} (rest : List Str) (acc : Str)
    (h0 : version0Match line = none)
    (h : version1Match line = none ∨ acc ≠ []) :
    verSel acc (line :: rest) = verSel acc rest := by
  unfold verSel
  rw [List.filterMap_cons_none h0]
  rcases h with h1 | hacc
  · rw [List.filterMap_cons_none h1]
  · cases h1 : version1Match line with
    | none => rw [List.filterMap_cons_none h1]
    | some w =>
      rw [List.filterMap_cons_some h1]
      cases hF0 : (rest.filterMap version0Match).getLast? with
      | some x => rfl
      | none =>
        simp only [List.head?_cons]
        cases hF1 : (rest.filterMap version1Match).head? with
        | none => simp [if_neg hacc]
        | some w1 => simp [if_neg hacc]

/-- The scan loop's final `version` is `verSel` of the accumulator and
the remaining lines. -/
theorem androidScan_ok_version (frameMatch : Str → Option FrameCapture) :
    ∀ (lines : List Str) (acc : Str) (frames : List androidFrame)
      (v : Str) (fr : List androidFrame),
      androidScan frameMatch lines acc frames = .ok (v, fr) → v = verSel acc lines := by
  intro lines
  induction lines with
  | nil =>
    intro acc frames v fr h
    unfold androidScan at h
    cases h
    simp [verSel]
  | cons line rest ih =>
    intro acc frames v fr h
    unfold androidScan at h
    cases h0 : version0Match line with
    | some w =>
      simp only [h0] at h
      rw [verSel_cons_v0 rest acc h0 (version0Match_ne_nil h0)]
      exact ih _ _ _ _ h
    | none =>
      simp only [h0] at h
      cases h1 : version1Match line with
      | some w =>
        simp only [h1] at h
        by_cases hacc : acc = []
        · rw [if_pos hacc] at h
          subst hacc
          rw [verSel_cons_v1 rest h0 h1 (version1Match_ne_nil h1)]
          exact ih _ _ _ _ h
        · rw [if_neg hacc] at h
          rw [verSel_cons_skip rest acc h0 (Or.inr hacc)]
          cases hstep : androidFrameStep frameMatch line frames with
          | error e =>
            simp only [hstep] at h
            exact Except.noConfusion h
          | ok frames' =>
            simp only [hstep] at h
            exact ih _ _ _ _ h
      | none =>
        simp only [h1] at h
        rw [verSel_cons_skip rest acc h0 (Or.inl h1)]
        cases hstep : androidFrameStep frameMatch line frames with
        | error e =>
          simp only [hstep] at h
          exact Except.noConfusion h
        | ok frames' =>
          simp only [hstep] at h
          exact ih _ _ _ _ h

theorem verSel_nil_eq (lines : List Str) :
    verSel [] lines = (scannedVersion lines).getD [] := by
  unfold verSel scannedVersion
  cases (lines.filterMap version0Match).getLast? with
  | some w => rfl
  | none =>
    cases (lines.filterMap version1Match).head? with
    | some w => simp
    | none => rfl

/-- C8 (amended): the build version used for the module-info lookup is,
when ingest reaches the lookup, the manually supplied version whenever
that is non-empty, and otherwise the *last* matching format-0 (dotted)
`google-breakpad` version line — a later dotted match overwrites an
earlier one — falling back to the first matching format-1 line only
while no version has been seen; when the manual version is empty and no
line yields a version, ingest fails with an error. -/
theorem androidVersionSelection (frameMatch : Str → Option FrameCapture)
    (lines : List Str) (manual : Str) :
    (∀ v, androidVersion frameMatch lines manual = .ok v →
        v = if manual ≠ [] then manual else (scannedVersion lines).getD []) ∧
      (manual = [] → scannedVersion lines = none →
        ∃ e, androidVersion frameMatch lines manual = .error e) := by
  constructor
  · intro v hv
    unfold androidVersion at hv
    cases hscan : androidScan frameMatch lines [] [] with
    | error e => rw [hscan] at hv; cases hv
    | ok p =>
      obtain ⟨w, fr⟩ := p
      rw [hscan] at hv
      have hw : w = verSel [] lines := androidScan_ok_version frameMatch lines [] [] w fr hscan
      by_cases hm : manual ≠ []
      · simp only [if_pos hm] at hv ⊢
        by_cases hz : manual = []
        · exact absurd hz hm
        · simp only [if_neg hz] at hv
          cases hv
          rfl
      · simp only [if_neg hm] at hv ⊢
        by_cases hz : w = []
        · rw [if_pos hz] at hv; cases hv
        · rw [if_neg hz] at hv
          cases hv
          rw [hw, verSel_nil_eq]
  · intro hm hnone
    unfold androidVersion
    cases hscan : androidScan frameMatch lines [] [] with
    | error e => exact ⟨e, rfl⟩
    | ok p =>
      obtain ⟨w, fr⟩ := p
      have hw : w = verSel [] lines := androidScan_ok_version frameMatch lines [] [] w fr hscan
      have hwnil : w = [] := by
        rw [hw, verSel_nil_eq, hnone]
        rfl
      subst hm
      simp only [ne_eq, not_true_eq_false, if_false, hwnil]
      exact ⟨_, rfl⟩

/-- Two dotted `google-breakpad` version lines. -/
def c8Lines : List Str :=
  [str "W/google-breakpad(123): 1.2", str "W/google-breakpad(123): 3.4"]

/-- Counterexample for C8 as stated: with two matching format-0 version
lines, the version used is the capture of the *second* line, not the
first-occurrence capture `1.2` (the frame matcher is irrelevant here —
both lines take the format-0 branch — so it is instantiated with the
never-matching function). -/
theorem androidVersionLastDottedWins :
    version0Match (c8Lines.getD 0 []) = some (str "1.2") ∧
      androidVersion (fun _ => none) c8Lines [] = .ok (str "3.4") ∧
      (str "3.4" : Str) ≠ str "1.2" :=
  ⟨by decide, by decide, by decide⟩

/-- Witness for C8 (amended) at the concrete two-line log. -/
theorem androidVersionSelection_witness :
    androidVersion (fun _ => none) c8Lines [] = .ok (str "3.4") ∧
      str "3.4" =
        (if ([] : Str) ≠ [] then ([] : Str) else (scannedVersion c8Lines).getD []) :=
  ⟨by decide,
    (androidVersionSelection (fun _ => none) c8Lines []).1 (str "3.4") (by decide)⟩

/-! ## Apple parser rendering (`appleParser.Symbolize`) -/

/-- Wrapping `uint64` subtraction (`address - binaryImage.baseAddress`). -/
def u64sub (a b : Nat) : Nat := (a % U64 + U64 - b % U64) % U64

/-- How stack-frame module names key into the binary-image map. -/
inductive frameModuleType where
  | bundleID
  | breakpad
  deriving Repr, DecidableEq

/-- The four index spans a line parser extracts from a frame line. -/
structure appleReportFragment where
  address : Nat × Nat
  module : Nat × Nat
  functionName : Nat × Nat
  fileNameLocation : Nat × Nat
  deriving Repr, DecidableEq

/-- Go string slicing `line[a:b]` (the regex-derived spans are always in
range, where taking before dropping reproduces the slice). -/
def slice (s : Str) (p : Nat × Nat) : Str := (s.take p.2).drop p.1

/-- A pending splice (`replacement`). -/
structure replacement where
  loc : Nat × Nat
  value : Str
  deriving Repr, DecidableEq

/-- Insert into a list sorted by descending start offset, keeping the
original order of equal starts — for the two-element replacement lists
of the render loop this is exactly Go's `sort.Sort(sort.Reverse(rl))`,
whose insertion sort swaps only on strict inequality. -/
def insertDescRepl (r : replacement) : List replacement → List replacement
  | [] => [r]
  | y :: rest =>
    if y.loc.1 ≤ r.loc.1 then r :: y :: rest else y :: insertDescRepl r rest

/-- Sort replacements by descending start offset (stable). -/
def sortDescRepl : List replacement → List replacement
  | [] => []
  | r :: rest => insertDescRepl r (sortDescRepl rest)

/-- Apply one splice: `line[:start] + value + line[end:]`. -/
def applySplice (line : Str) (r : replacement) : Str :=
  line.take r.loc.1 ++ r.value ++ line.drop r.loc.2

/-- Association-list read for the module maps. -/
def assocFind {α : Type} (l : List (Str × α)) (k : Str) : Option α :=
  (l.find? (fun p => p.1 = k)).map Prod.snd

/-- Insert-or-overwrite, as Go map assignment behaves. -/
def assocUpsert {α : Type} (l : List (Str × α)) (k : Str) (v : α) : List (Str × α) :=
  if (l.find? (fun p => p.1 = k)).isSome then
    l.map (fun p => if p.1 = k then (k, v) else p)
  else l ++ [(k, v)]

/-- The re-keying of `p.modules` by Breakpad name performed for the
hang dialects. -/
def remapByBreakpadName (modules : List (Str × binaryImage)) :
    List (Str × binaryImage) :=
  modules.foldl (fun acc p => assocUpsert acc p.2.breakpadName p.2) []

/-- The body of the `Symbolize` line loop for one line.  `some line'`
is the (possibly rewritten) line; `none` models the Go panic: when the
symbol lookup misses, the source dereferences the nil `*Symbol`
(`symbol.Function`) without a check. -/
def appleProcessLine (lineParser : Str → Option appleReportFragment)
    (tableMapType : frameModuleType)
    (modules : List (Str × binaryImage))
    (modulesByBreakpad : List (Str × binaryImage))
    (tables : List breakpadFile) (line : Str) : Option Str :=
  match lineParser line with
  | none => some line
  | some frag =>
    match ParseAddress (slice line frag.address) with
    | none => some line
    | some address =>
      let moduleName := slice line frag.module
      let img? : Option binaryImage :=
        match tableMapType with
        | .breakpad => assocFind modulesByBreakpad moduleName
        | .bundleID => some ((assocFind modules moduleName).getD default)
      match img? with
      | none => some line
      | some img =>
        match tableForName tables img.breakpadName with
        | none => some line
        | some table =>
          match SymbolForAddress table (u64sub address img.baseAddress) with
          | none => none   -- nil-pointer dereference: `symbol.Function` panics
          | some symbol =>
            let rl := [⟨frag.functionName, symbol.Function⟩,
                       ⟨frag.fileNameLocation, symbol.FileLine⟩]
            some ((sortDescRepl rl).foldl applySplice line)

/-- `strings.Join(lines, "\n")`. -/
def joinNL : List Str → Str
  | [] => []
  | [l] => l
  | l :: rest => l ++ '\n' :: joinNL rest

/-- `appleParser.Symbolize` on the post-ingest state: rewrite each line
in place and join; `none` models a panic escaping the loop. -/
def appleSymbolize (lineParser : Str → Option appleReportFragment)
    (tableMapType : frameModuleType)
    (modules : List (Str × binaryImage))
    (lines : List Str) (tables : List breakpadFile) : Option Str :=
  match lines.mapM
      (appleProcessLine lineParser tableMapType modules
        (remapByBreakpadName modules) tables) with
  | none => none
  | some ls => some (joinNL ls)

/-! ## C2: the Apple render is not total -/

/-- A crash-report frame line (report version 9 dialect). -/
def c2Line : Str := str "4   com.x 0x2000 foo + 1"

/-- The spans `symbolizeCrashFragment` extracts from `c2Line` via the
`kCrashFrame` regex `(\d+[ ]+([^\s]+)\s+0x([[:xdigit:]]+)) ((.*) \+ (.*))`:
module `com.x`, address digits `2000`, function name `foo`, file/line
location at the trailing offset `1`. -/
def c2Fragment : appleReportFragment :=
  { address := (12, 16), module := (4, 9),
    functionName := (17, 20), fileNameLocation := (23, 24) }

/-- The crash-dialect line parser evaluated on the single line of the
failing report (the regex matches no other line of that report). -/
def c2LineParser (l : Str) : Option appleReportFragment :=
  if l = c2Line then some c2Fragment else none

/-- The binary-image table of the failing report: `com.x` is loaded at
`0x1000` from `/L/F/Mod`. -/
def c2Modules : List (Str × binaryImage) :=
  [(str "com.x",
    { baseAddress := 0x1000, name := str "com.x", ident := str "AAAA",
      path := str "/L/F/Mod" })]

/-- A symbol table for module `Mod` covering only `[0, 0x10)`. -/
def c2SymData : Str := str "MODULE mac x86 AAAA Mod\nFUNC 0 10 0 f\n"

/-- C2 (code bug): with a table supplied for the frame's module but the
frame's relative address `0x1000` covered by no FUNC or PUBLIC record,
the lookup returns no symbol and `Symbolize` dereferences the nil
`*Symbol` — the render panics (`none`) instead of degrading; with no
table supplied at all, the same frame line is left untouched, as the
claim correctly states. -/
theorem appleSymbolizeNilSymbolPanics :
    SymbolForAddress (tableOf c2SymData) 0x1000 = none ∧
      appleSymbolize c2LineParser .bundleID c2Modules [c2Line]
          [tableOf c2SymData] = none ∧
      appleSymbolize c2LineParser .bundleID c2Modules [c2Line] [] =
        some c2Line :=
  ⟨by decide, by decide, by decide⟩

/-! ## C1: `SymbolForAddress` lookup semantics -/

/-- Two FUNC extents do not overlap. -/
def funcDisjoint (f g : funcRecord) : Prop :=
  f.address + f.size ≤ g.address ∨ g.address + g.size ≤ f.address

instance : DecidableRel funcDisjoint := fun f g =>
  inferInstanceAs (Decidable (_ ∨ _))

/-- The symbol the claim describes for a FUNC hit: the record's name,
with file and line taken from the first LINE record whose half-open
interval `[lineAddr, lineAddr + lineSize)` contains the address, and no
file/line when none matches.  (Written from the claim, for comparison
with `lineAtAddress`.) -/
def claimFuncSymbol (files : List (Int × Str)) (a : Nat) (f : funcRecord) : Symbol :=
  match f.lines.find? (fun l => decide (l.address ≤ a) && decide (a < l.address + l.size)) with
  | some l => { Function := f.name, File := filesGet files l.file, Line := l.line }
  | none => { Function := f.name }

theorem find?_congr {α : Type} {p q : α → Bool} :
    ∀ {l : List α}, (∀ x ∈ l, p x = q x) → l.find? p = l.find? q := by
  intro l
  induction l with
  | nil => intro _; rfl
  | cons a rest ih =>
    intro h
    have ha := h a (List.mem_cons_self a rest)
    by_cases hpa : p a = true
    · rw [List.find?_cons_of_pos _ hpa, List.find?_cons_of_pos _ (ha ▸ hpa)]
    · have hpa' : p a = false := by simpa using hpa
      rw [List.find?_cons_of_neg _ (by simp [hpa']),
        List.find?_cons_of_neg _ (by simp [← ha, hpa'])]
      exact ih (fun x hx => h x (List.mem_cons_of_mem a hx))

/-- Without `uint64` overflow in the LINE extents the source's
`lineAtAddress` computes exactly the claim's symbol. -/
theorem lineAtAddress_eq_claim {files : List (Int × Str)} {a : Nat} {f : funcRecord}
    (hlb : ∀ l ∈ f.lines, l.address + l.size < U64) :
    lineAtAddress files a f { Function := f.name } = claimFuncSymbol files a f := by
  unfold lineAtAddress claimFuncSymbol
  rw [find?_congr (q := fun l => decide (l.address ≤ a) && decide (a < l.address + l.size))
      (fun l hl => by
        have := hlb l hl
        have hmod : (l.address + l.size) % U64 = l.address + l.size := Nat.mod_eq_of_lt this
        rw [hmod])]

/-- Membership of an indexed element. -/
theorem getFin_mem {α : Type} (l : List α) (i : Fin l.length) : l.get i ∈ l :=
  List.get_mem l i.1 i.2

/-- Sorted, pairwise-disjoint, positive-size FUNC records are ordered
by whole extents: an earlier record ends no later than a later record
begins. -/
theorem funcs_interval_order {funcs : List funcRecord}
    (hsorted : funcs.Sorted funcLE)
    (hpos : ∀ f ∈ funcs, 0 < f.size)
    (hdisj : funcs.Pairwise funcDisjoint) :
    ∀ (i j : Fin funcs.length), i < j →
      (funcs.get i).address + (funcs.get i).size ≤ (funcs.get j).address := by
  intro i j hij
  rcases List.pairwise_iff_get.mp hdisj i j hij with h | h
  · exact h
  · have hle : (funcs.get i).address ≤ (funcs.get j).address :=
      List.pairwise_iff_get.mp hsorted i j hij
    have hposj : 0 < (funcs.get j).size := hpos _ (getFin_mem funcs j)
    omega

/-- The binary search returns the (unique) record whose extent contains
the address, under sortedness, disjointness, positive sizes and no
`uint64` overflow. -/
theorem funcSearch_finds {files : List (Int × Str)} {funcs : List funcRecord} {a : Nat}
    (hsorted : funcs.Sorted funcLE)
    (hpos : ∀ f ∈ funcs, 0 < f.size)
    (hbound : ∀ f ∈ funcs, f.address + f.size < U64)
    (hdisj : funcs.Pairwise funcDisjoint)
    (k : Fin funcs.length)
    (hcont : (funcs.get k).address ≤ a ∧ a < (funcs.get k).address + (funcs.get k).size) :
    ∀ (fuel low high : Nat), low ≤ k → (k : Nat) < high → high ≤ funcs.length →
      high - low ≤ fuel →
      funcSearch files funcs a low high fuel =
        some (lineAtAddress files a (funcs.get k) { Function := (funcs.get k).name }) := by
  intro fuel
  induction fuel with
  | zero =>
    intro low high h1 h2 h3 h4
    omega
  | succ fuel ih =>
    intro low high hlowk hkhigh hhigh hfuel
    have hlh : low < high := by omega
    simp only [funcSearch, if_pos hlh]
    have hmidlen : low + (high - low) / 2 < funcs.length := by omega
    rw [List.getD_eq_get _ _ hmidlen]
    set mid := low + (high - low) / 2 with hmiddef
    rcases lt_trichotomy mid (k : Nat) with hmk | hmk | hmk
    · -- the containing record is to the right
      have horder := funcs_interval_order hsorted hpos hdisj ⟨mid, hmidlen⟩ k hmk
      have hposm : 0 < (funcs.get ⟨mid, hmidlen⟩).size := hpos _ (getFin_mem funcs _)
      have hup : ¬(a ≥ (funcs.get ⟨mid, hmidlen⟩).address ∧
          a < ((funcs.get ⟨mid, hmidlen⟩).address + (funcs.get ⟨mid, hmidlen⟩).size) % U64) := by
        rw [Nat.mod_eq_of_lt (hbound _ (getFin_mem funcs _))]
        omega
      rw [if_neg hup, if_pos (by omega : a > (funcs.get ⟨mid, hmidlen⟩).address)]
      exact ih (mid + 1) high (by omega) hkhigh hhigh (by omega)
    · -- hit
      have hcc : a ≥ (funcs.get ⟨mid, hmidlen⟩).address ∧
          a < ((funcs.get ⟨mid, hmidlen⟩).address + (funcs.get ⟨mid, hmidlen⟩).size) % U64 := by
        rw [Nat.mod_eq_of_lt (hbound _ (getFin_mem funcs _))]
        have : (⟨mid, hmidlen⟩ : Fin funcs.length) = k := Fin.ext hmk
        rw [this]
        omega
      rw [if_pos hcc]
      have : (⟨mid, hmidlen⟩ : Fin funcs.length) = k := Fin.ext hmk
      rw [this]
    · -- the containing record is to the left
      have horder := funcs_interval_order hsorted hpos hdisj k ⟨mid, hmidlen⟩ hmk
      have hup : ¬(a ≥ (funcs.get ⟨mid, hmidlen⟩).address ∧
          a < ((funcs.get ⟨mid, hmidlen⟩).address + (funcs.get ⟨mid, hmidlen⟩).size) % U64) := by
        omega
      rw [if_neg hup, if_neg (by omega : ¬a > (funcs.get ⟨mid, hmidlen⟩).address)]
      exact ih low mid hlowk hmk (by omega) (by omega)

/-- When no record's (wrapped) extent contains the address, the binary
search misses. -/
theorem funcSearch_none {files : List (Int × Str)} {funcs : List funcRecord} {a : Nat}
    (hnone : ∀ f ∈ funcs, ¬(f.address ≤ a ∧ a < (f.address + f.size) % U64)) :
    ∀ (fuel low high : Nat), high ≤ funcs.length →
      funcSearch files funcs a low high fuel = none := by
  intro fuel
  induction fuel with
  | zero => intro low high _; rfl
  | succ fuel ih =>
    intro low high hhigh
    simp only [funcSearch]
    by_cases hlh : low < high
    · rw [if_pos hlh]
      have hmidlen : low + (high - low) / 2 < funcs.length := by omega
      rw [List.getD_eq_get _ _ hmidlen]
      have hnc := hnone _ (getFin_mem funcs ⟨low + (high - low) / 2, hmidlen⟩)
      rw [if_neg (fun hc => hnc ⟨hc.1, hc.2⟩)]
      by_cases hgt : a > (funcs.get ⟨low + (high - low) / 2, hmidlen⟩).address
      · rw [if_pos hgt]
        exact ih _ high hhigh
      · rw [if_neg hgt]
        exact ih low _ (by omega)
    · rw [if_neg hlh]

/-- `sort.Search` finds the least index in `[i, j)` satisfying a
predicate monotone below `n`, or `j` when none is. -/
theorem goSearch_correct (f : Nat → Bool) (n : Nat)
    (hmono : ∀ k k', k ≤ k' → k' < n → f k = true → f k' = true) :
    ∀ (fuel i j : Nat), i ≤ j → j ≤ n → j - i ≤ fuel →
      i ≤ goSearch f i j fuel ∧ goSearch f i j fuel ≤ j ∧
        (∀ k, i ≤ k → k < goSearch f i j fuel → f k = false) ∧
        (goSearch f i j fuel < j → f (goSearch f i j fuel) = true) := by
  intro fuel
  induction fuel with
  | zero =>
    intro i j hij hjn hfuel
    have hije : i = j := by omega
    simp only [goSearch]
    exact ⟨le_refl _, by omega, fun k h1 h2 => by omega, by omega⟩
  | succ fuel ih =>
    intro i j hij hjn hfuel
    simp only [goSearch]
    by_cases hlt : i < j
    · rw [if_pos hlt]
      have him : i ≤ (i + j) / 2 := by omega
      have hmj : (i + j) / 2 < j := by omega
      cases hfm : f ((i + j) / 2) with
      | false =>
        simp only [hfm, Bool.not_false, if_true]
        obtain ⟨h1, h2, h3, h4⟩ := ih ((i + j) / 2 + 1) j (by omega) hjn (by omega)
        refine ⟨by omega, h2, ?_, h4⟩
        intro k hk1 hk2
        by_cases hkm : k ≤ (i + j) / 2
        · cases hfk : f k with
          | false => rfl
          | true =>
            have := hmono k ((i + j) / 2) hkm (by omega) hfk
            rw [this] at hfm
            cases hfm
        · exact h3 k (by omega) hk2
      | true =>
        simp only [hfm, Bool.not_true, Bool.false_eq_true, if_false]
        obtain ⟨h1, h2, h3, h4⟩ := ih i ((i + j) / 2) him (by omega) (by omega)
        refine ⟨h1, by omega, h3, ?_⟩
        intro _
        by_cases hrm : goSearch f i ((i + j) / 2) fuel < (i + j) / 2
        · exact h4 hrm
        · have heq : goSearch f i ((i + j) / 2) fuel = (i + j) / 2 := by omega
          rw [heq]
          exact hfm
    · rw [if_neg hlt]
      exact ⟨le_refl _, by omega, fun k h1 h2 => by omega, by omega⟩

/-- `List.findIdx` characterized positionally with `getD`. -/
theorem findIdx_spec {α : Type} (p : α → Bool) (d : α) :
    ∀ l : List α, l.findIdx p ≤ l.length ∧
      (∀ k, k < l.findIdx p → p (l.getD k d) = false) ∧
      (l.findIdx p < l.length → p (l.getD (l.findIdx p) d) = true) := by
  intro l
  induction l with
  | nil =>
    refine ⟨by simp, fun k hk => ?_, by simp⟩
    simp [List.findIdx, List.findIdx.go] at hk
  | cons x t ih =>
    rw [List.findIdx_cons]
    cases hx : p x with
    | true =>
      simp only [cond_true]
      exact ⟨by simp, fun k hk => by omega, fun _ => hx⟩
    | false =>
      simp only [cond_false]
      obtain ⟨h1, h2, h3⟩ := ih
      refine ⟨by simp; omega, ?_, ?_⟩
      · intro k hk
        cases k with
        | zero => simpa using hx
        | succ k' =>
          have : k' < t.findIdx p := by omega
          simpa using h2 k' this
      · intro hlen
        have : t.findIdx p < t.length := by simpa using hlen
        simpa using h3 this

/-- For an address-sorted PUBLIC list, `sort.Search` computes the index
of the first record with `address > a` (the list length when none). -/
theorem goSearch_eq_findIdx {publics : List funcRecord} {a : Nat}
    (hsorted : publics.Sorted funcLE) :
    goSearch (fun i => decide ((publics.getD i default).address > a)) 0
        publics.length publics.length =
      publics.findIdx (fun p => decide (a < p.address)) := by
  have hmono : ∀ k k', k ≤ k' → k' < publics.length →
      (fun i => decide ((publics.getD i default).address > a)) k = true →
      (fun i => decide ((publics.getD i default).address > a)) k' = true := by
    intro k k' hkk hk' hfk
    have hk : k < publics.length := lt_of_le_of_lt (le_of_eq rfl) (lt_of_le_of_lt hkk hk')
    simp only [decide_eq_true_eq] at hfk ⊢
    have hle : (publics.getD k default).address ≤ (publics.getD k' default).address := by
      rcases eq_or_lt_of_le hkk with rfl | hlt
      · exact le_refl _
      · rw [List.getD_eq_get _ _ (lt_of_le_of_lt hkk hk'), List.getD_eq_get _ _ hk']
        exact List.pairwise_iff_get.mp hsorted ⟨k, _⟩ ⟨k', hk'⟩ hlt
    omega
  obtain ⟨g1, g2, g3, g4⟩ :=
    goSearch_correct _ publics.length hmono publics.length 0 publics.length
      (by omega) (le_refl _) (by omega)
  obtain ⟨f1, f2, f3⟩ := findIdx_spec (fun p => decide (a < p.address)) default publics
  rcases lt_trichotomy
      (goSearch (fun i => decide ((publics.getD i default).address > a)) 0
        publics.length publics.length)
      (publics.findIdx (fun p => decide (a < p.address))) with h | h | h
  · have htrue := g4 (lt_of_lt_of_le h f1)
    have hfalse := f2 _ h
    rw [hfalse] at htrue
    exact absurd htrue (by decide)
  · exact h
  · have htrue := f3 (lt_of_lt_of_le h g2)
    have hfalse := g3 _ (Nat.zero_le _) h
    rw [hfalse] at htrue
    exact absurd htrue (by decide)

/-- C1 (amended): for a decoded table whose FUNC records all have
positive size, overflow-free extents (and overflow-free LINE extents),
and pairwise-disjoint intervals, `SymbolForAddress` returns the symbol
of the FUNC record whose half-open interval contains the address, with
file/line from the first containing LINE record; otherwise, when the
index of the first PUBLIC record with `address > a` (length when none)
is positive, it returns the name of the PUBLIC record just before that
index, and otherwise no symbol. -/
theorem symbolForAddressSpec (data : Str) (b : breakpadFile) (a : Nat)
    (hok : parseBreakpad data = .ok b)
    (hpos : ∀ f ∈ b.funcs, 0 < f.size)
    (hbound : ∀ f ∈ b.funcs, f.address + f.size < U64)
    (hlbound : ∀ f ∈ b.funcs, ∀ l ∈ f.lines, l.address + l.size < U64)
    (hdisj : b.funcs.Pairwise funcDisjoint) :
    (∀ f ∈ b.funcs, f.address ≤ a → a < f.address + f.size →
        SymbolForAddress b a = some (claimFuncSymbol b.files a f)) ∧
      ((∀ f ∈ b.funcs, ¬(f.address ≤ a ∧ a < f.address + f.size)) →
        (0 < b.publics.findIdx (fun p => decide (a < p.address)) →
            SymbolForAddress b a =
              some { Function := (b.publics.getD
                (b.publics.findIdx (fun p => decide (a < p.address)) - 1)
                default).name }) ∧
          (b.publics.findIdx (fun p => decide (a < p.address)) = 0 →
            SymbolForAddress b a = none)) := by
  obtain ⟨hfsorted, hpsorted⟩ := parseBreakpad_ok_sorted hok
  constructor
  · intro f hf hf1 hf2
    obtain ⟨k, hk⟩ := List.mem_iff_get.mp hf
    unfold SymbolForAddress
    rw [funcSearch_finds hfsorted hpos hbound hdisj k
        (by rw [hk]; exact ⟨hf1, hf2⟩)
        b.funcs.length 0 b.funcs.length (Nat.zero_le _) k.2 (le_refl _) (by omega)]
    rw [hk, lineAtAddress_eq_claim (hlbound f hf)]
  · intro hnofunc
    have hnone : funcSearch b.files b.funcs a 0 b.funcs.length b.funcs.length = none := by
      apply funcSearch_none ?_ b.funcs.length 0 b.funcs.length (le_refl _)
      intro f hf hc
      have hb := hbound f hf
      rw [Nat.mod_eq_of_lt hb] at hc
      exact hnofunc f hf hc
    unfold SymbolForAddress
    simp only [hnone]
    rw [goSearch_eq_findIdx hpsorted]
    have hile : b.publics.findIdx (fun p => decide (a < p.address)) ≤ b.publics.length :=
      (findIdx_spec _ default _).1
    constructor
    · intro hipos
      rw [if_pos ⟨hile, hipos⟩]
    · intro hizero
      rw [if_neg (fun hc => by omega)]

/-- Two FUNC records whose extents overlap (`[0, 0x64)` and
`[0xa, 0xf)`). -/
def c1Data : Str := str "MODULE mac x86 AAAA m\nFUNC 0 64 0 f\nFUNC a 5 0 g\n"

/-- Counterexample for C1 as stated: decoding succeeds, the first FUNC
record's interval `[0, 0x64)` contains the address `0x50`, yet
`SymbolForAddress` returns no symbol — the binary search probes the
second record `[0xa, 0xf)` and walks right, past the containing
record. -/
theorem symbolForAddressMissesOverlappedFunc :
    parseBreakpad c1Data = .ok (tableOf c1Data) ∧
      (tableOf c1Data).funcs.getD 0 default ∈ (tableOf c1Data).funcs ∧
      ((tableOf c1Data).funcs.getD 0 default).address ≤ 0x50 ∧
      0x50 < ((tableOf c1Data).funcs.getD 0 default).address +
        ((tableOf c1Data).funcs.getD 0 default).size ∧
      SymbolForAddress (tableOf c1Data) 0x50 = none :=
  ⟨by decide, by decide, by decide, by decide, by decide⟩

/-- The spec's boundary-example symbol file. -/
def c1WitnessData : Str :=
  str "MODULE mac x86 73C5EC60C2EA7343C2495AB71C16B32B0 A Module With Spaces\nFILE 0 /Volumes/Source Path/project/main.cc\nFUNC 1f4a9 20 0 Allays::IBF(int, int*) const\n1f4a9 4 55 0\nPUBLIC abc123 0 CreateDelegate(int, void**)\n"

/-- Witness for C1 (amended) on the spec's boundary example at address
`0x1f4a9`. -/
theorem symbolForAddressSpec_witness :
    (parseBreakpad c1WitnessData = .ok (tableOf c1WitnessData) ∧
        (∀ f ∈ (tableOf c1WitnessData).funcs, 0 < f.size) ∧
        (∀ f ∈ (tableOf c1WitnessData).funcs, f.address + f.size < U64) ∧
        (∀ f ∈ (tableOf c1WitnessData).funcs, ∀ l ∈ f.lines,
          l.address + l.size < U64) ∧
        (tableOf c1WitnessData).funcs.Pairwise funcDisjoint) ∧
      ((∀ f ∈ (tableOf c1WitnessData).funcs,
          f.address ≤ 0x1f4a9 → 0x1f4a9 < f.address + f.size →
          SymbolForAddress (tableOf c1WitnessData) 0x1f4a9 =
            some (claimFuncSymbol (tableOf c1WitnessData).files 0x1f4a9 f)) ∧
        ((∀ f ∈ (tableOf c1WitnessData).funcs,
            ¬(f.address ≤ 0x1f4a9 ∧ 0x1f4a9 < f.address + f.size)) →
          (0 < (tableOf c1WitnessData).publics.findIdx
              (fun p => decide (0x1f4a9 < p.address)) →
            SymbolForAddress (tableOf c1WitnessData) 0x1f4a9 =
              some { Function := ((tableOf c1WitnessData).publics.getD
                ((tableOf c1WitnessData).publics.findIdx
                  (fun p => decide (0x1f4a9 < p.address)) - 1) default).name }) ∧
          ((tableOf c1WitnessData).publics.findIdx
              (fun p => decide (0x1f4a9 < p.address)) = 0 →
            SymbolForAddress (tableOf c1WitnessData) 0x1f4a9 = none))) :=
  ⟨⟨by decide, by decide, by decide, by decide, by decide⟩,
    symbolForAddressSpec c1WitnessData (tableOf c1WitnessData) 0x1f4a9
      (by decide) (by decide) (by decide) (by decide) (by decide)⟩

end Crsym
